import Mathlib

/-!
# Verification of the vc-suite-ecdsa specification claims

This file gives a shallow embedding, in Lean 4, of the parts of the
`vc-suite-ecdsa` TypeScript repository that the specification claims C1..C10
talk about, and proves or refutes each claim.

Modelling conventions:
* bytes are natural numbers; a byte string is a `List Nat` whose entries are
  below 256 (`allBytes`);
* JavaScript strings are sequences of Unicode code points, modelled as
  `List Nat` (`Str`); `strCodes` converts a Lean string literal;
* external collaborators (Web Crypto sign/verify/digest, the document loader,
  RDF and JCS canonicalization, `Date.parse`) are parameters of the embedded
  functions, constrained only by hypotheses stating their documented
  behaviour;
* the multibase / CBOR codec layer, which lives in the external
  `@herculas/vc-data-integrity` and `cbor2` packages, is modelled from the
  spec (base58btc with `z` header, base64url-no-pad with `u` header, CBOR per
  RFC 8949 without tags) and implemented executably here;
* fallible TypeScript code (functions that `throw`) is modelled with
  `Except ErrorCode`.
-/

namespace VCE

/-- Error kinds raised by the suite (spec §7). -/
inductive ErrorCode where
  | ENCODING_ERROR
  | DECODING_ERROR
  | INVALID_KEYPAIR_CONTENT
  | INVALID_KEYPAIR_LENGTH
  | KEYPAIR_EXPORT_ERROR
  | KEYPAIR_IMPORT_ERROR
  | PROOF_TRANSFORMATION_ERROR
  | PROOF_GENERATION_ERROR
  | PROOF_VERIFICATION_ERROR
  | INVALID_VERIFICATION_METHOD
  | ASSERTION_ERROR
deriving DecidableEq, Repr

/-- JavaScript strings are modelled as lists of Unicode code points. -/
abbrev Str := List Nat

/-- Code points of a Lean string literal. -/
def strCodes (s : String) : Str := s.data.map (fun c => c.toNat)

/-- Every entry of the list is a byte value. -/
def allBytes (bs : List Nat) : Prop := ∀ x ∈ bs, x < 256

instance (bs : List Nat) : Decidable (allBytes bs) := by
  unfold allBytes; infer_instance

/-! ## Positional number systems

`ofBaseLE` and `toBaseLE` convert between natural numbers and little-endian
digit lists; `toBaseLE` takes explicit fuel so that it is structurally
recursive (and therefore kernel-computable). These are the work-horses behind
the base-58 and decimal codecs. -/

/-- Value of a little-endian digit list in base `b`. -/
def ofBaseLE (b : Nat) : List Nat → Nat
  | [] => 0
  | d :: ds => d + b * ofBaseLE b ds

/-- Little-endian digits of `n` in base `b`; `fuel` bounds the number of
digits produced and must satisfy `n < b ^ fuel` for correctness. -/
def toBaseLE (b : Nat) : Nat → Nat → List Nat
  | 0, _ => []
  | fuel + 1, n => if n = 0 then [] else n % b :: toBaseLE b fuel (n / b)

theorem toBaseLE_zero (b fuel : Nat) : toBaseLE b fuel 0 = [] := by
  cases fuel <;> simp [toBaseLE]

theorem ofBaseLE_toBaseLE (b : Nat) (hb : 2 ≤ b) :
    ∀ fuel n, n < b ^ fuel → ofBaseLE b (toBaseLE b fuel n) = n := by
  intro fuel
  induction fuel with
  | zero =>
    intro n hn
    simp only [pow_zero, Nat.lt_one_iff] at hn
    simp [toBaseLE, hn, ofBaseLE]
  | succ f ih =>
    intro n hn
    by_cases h0 : n = 0
    · simp [toBaseLE, h0, ofBaseLE]
    · rw [toBaseLE, if_neg h0, ofBaseLE, ih (n / b) ?hlt]
      · exact Nat.mod_add_div n b
      case hlt =>
        have hb0 : 0 < b := by omega
        rw [Nat.div_lt_iff_lt_mul hb0]
        calc n < b ^ (f + 1) := hn
        _ = b ^ f * b := by ring

theorem toBaseLE_digits_lt (b : Nat) (hb : 2 ≤ b) :
    ∀ fuel n, ∀ d ∈ toBaseLE b fuel n, d < b := by
  intro fuel
  induction fuel with
  | zero => intro n d hd; simp [toBaseLE] at hd
  | succ f ih =>
    intro n d hd
    by_cases h0 : n = 0
    · simp [toBaseLE, h0] at hd
    · rw [toBaseLE, if_neg h0] at hd
      rcases List.mem_cons.mp hd with h | h
      · subst h; exact Nat.mod_lt _ (by omega)
      · exact ih _ _ h

theorem toBaseLE_ne_nil (b fuel n : Nat) (h0 : n ≠ 0) (hn : n < b ^ fuel) :
    toBaseLE b fuel n ≠ [] := by
  cases fuel with
  | zero => simp only [pow_zero, Nat.lt_one_iff] at hn; omega
  | succ f => rw [toBaseLE, if_neg h0]; simp

/-- Drop the head under `getLast?` when the tail is nonempty. -/
theorem getLast?_cons_of_ne {α : Type _} (x : α) (xs : List α) (h : xs ≠ []) :
    (x :: xs).getLast? = xs.getLast? := by
  cases xs with
  | nil => exact absurd rfl h
  | cons y ys => simp [List.getLast?_cons_cons]

/-- A nonempty list has a last element, and it is a member. -/
theorem exists_getLast?_mem {α : Type _} :
    ∀ (l : List α), l ≠ [] → ∃ d, l.getLast? = some d ∧ d ∈ l := by
  intro l
  induction l with
  | nil => intro h; exact absurd rfl h
  | cons x xs ih =>
    intro _
    by_cases hxs : xs = []
    · subst hxs
      exact ⟨x, by simp⟩
    · obtain ⟨d, hd, hmem⟩ := ih hxs
      exact ⟨d, by rw [getLast?_cons_of_ne x xs hxs]; exact hd,
        List.mem_cons_of_mem _ hmem⟩

theorem toBaseLE_getLast_ne_zero (b : Nat) (hb : 2 ≤ b) :
    ∀ fuel n, n < b ^ fuel → ∀ d, (toBaseLE b fuel n).getLast? = some d → d ≠ 0 := by
  intro fuel
  induction fuel with
  | zero => intro n hn d hd; simp [toBaseLE] at hd
  | succ f ih =>
    intro n hn d hd
    by_cases h0 : n = 0
    · simp [toBaseLE, h0] at hd
    · rw [toBaseLE, if_neg h0] at hd
      have hdivlt : n / b < b ^ f := by
        have hb0 : 0 < b := by omega
        rw [Nat.div_lt_iff_lt_mul hb0]
        calc n < b ^ (f + 1) := hn
        _ = b ^ f * b := by ring
      by_cases hnb : n / b = 0
      · rw [hnb, toBaseLE_zero, List.getLast?_singleton] at hd
        have hlt : n < b := by
          by_contra hge
          push_neg at hge
          have := Nat.div_pos hge (by omega : 0 < b)
          omega
        rw [Nat.mod_eq_of_lt hlt, Option.some_inj] at hd
        omega
      · have hne : toBaseLE b f (n / b) ≠ [] := toBaseLE_ne_nil b f (n / b) hnb hdivlt
        rw [getLast?_cons_of_ne _ _ hne] at hd
        exact ih (n / b) hdivlt d hd

theorem ofBaseLE_eq_zero (b : Nat) (hb : 1 ≤ b) :
    ∀ ds, ofBaseLE b ds = 0 → ∀ d ∈ ds, d = 0 := by
  intro ds
  induction ds with
  | nil => intro _ d hd; simp at hd
  | cons x xs ih =>
    intro h d hd
    rw [ofBaseLE] at h
    have hx : x = 0 ∧ b * ofBaseLE b xs = 0 := by omega
    rcases List.mem_cons.mp hd with h' | h'
    · omega
    · exact ih (by
        rcases Nat.mul_eq_zero.mp hx.2 with h2 | h2
        · omega
        · exact h2) d h'

theorem toBaseLE_ofBaseLE (b : Nat) (hb : 2 ≤ b) :
    ∀ ds fuel, (∀ d ∈ ds, d < b) → (∀ d, ds.getLast? = some d → d ≠ 0) →
      ds.length ≤ fuel → toBaseLE b fuel (ofBaseLE b ds) = ds := by
  intro ds
  induction ds with
  | nil => intro fuel _ _ _; simp [ofBaseLE, toBaseLE_zero]
  | cons x xs ih =>
    intro fuel hlt hlast hlen
    cases fuel with
    | zero => simp at hlen
    | succ f =>
      have hx : x < b := hlt x (List.mem_cons_self x xs)
      have hval : ofBaseLE b (x :: xs) = x + b * ofBaseLE b xs := rfl
      have hne : ofBaseLE b (x :: xs) ≠ 0 := by
        intro h
        have hall := ofBaseLE_eq_zero b (by omega) (x :: xs) h
        obtain ⟨d, hd, hmem⟩ := exists_getLast?_mem (x :: xs) (by simp)
        exact hlast d hd (hall d hmem)
      rw [toBaseLE, if_neg hne, hval]
      have hmod : (x + b * ofBaseLE b xs) % b = x := by
        rw [Nat.add_mul_mod_self_left, Nat.mod_eq_of_lt hx]
      have hdiv : (x + b * ofBaseLE b xs) / b = ofBaseLE b xs := by
        rw [Nat.add_mul_div_left _ _ (by omega : 0 < b), Nat.div_eq_of_lt hx]
        omega
      rw [hmod, hdiv]
      by_cases hxs : xs = []
      · subst hxs; simp [toBaseLE_zero, ofBaseLE]
      · congr 1
        apply ih f
        · intro d hd; exact hlt d (List.mem_cons_of_mem _ hd)
        · intro d hd
          apply hlast d
          rw [getLast?_cons_of_ne _ _ hxs]
          exact hd
        · simp only [List.length_cons] at hlen
          omega

theorem toBaseLE_lt_pow_length (b : Nat) (hb : 2 ≤ b) :
    ∀ fuel n, n < b ^ fuel → n < b ^ (toBaseLE b fuel n).length := by
  intro fuel
  induction fuel with
  | zero => intro n hn; simpa [toBaseLE] using hn
  | succ f ih =>
    intro n hn
    by_cases h0 : n = 0
    · subst h0
      rw [toBaseLE_zero]
      simp
    · rw [toBaseLE, if_neg h0]
      have hb0 : 0 < b := by omega
      have hlt : n / b < b ^ f := by
        rw [Nat.div_lt_iff_lt_mul hb0]
        calc n < b ^ (f + 1) := hn
        _ = b ^ f * b := by ring
      have hih := ih (n / b) hlt
      have hmod : n % b < b := Nat.mod_lt _ hb0
      have hsplit : b * (n / b) + n % b = n := by
        have := Nat.div_add_mod n b
        omega
      simp only [List.length_cons]
      have hk : b * (n / b + 1) = b * (n / b) + b := by ring
      calc n < b * (n / b + 1) := by omega
      _ ≤ b * b ^ (toBaseLE b f (n / b)).length :=
          Nat.mul_le_mul (le_refl b) (by omega)
      _ = b ^ ((toBaseLE b f (n / b)).length + 1) := by ring

theorem ofBaseLE_le_bound (b : Nat) (_hb : 2 ≤ b) :
    ∀ ds, (∀ d ∈ ds, d < b) → ofBaseLE b ds < b ^ ds.length := by
  intro ds
  induction ds with
  | nil => intro _; simp [ofBaseLE]
  | cons x xs ih =>
    intro hlt
    have hx : x < b := hlt x (List.mem_cons_self x xs)
    have hxs := ih (fun d hd => hlt d (List.mem_cons_of_mem _ hd))
    rw [ofBaseLE]
    simp only [List.length_cons]
    calc x + b * ofBaseLE b xs < b + b * ofBaseLE b xs := by omega
    _ = b * (ofBaseLE b xs + 1) := by ring
    _ ≤ b * b ^ xs.length := Nat.mul_le_mul_left b (by omega)
    _ = b ^ (xs.length + 1) := by ring

theorem ofBaseLE_lower_bound (b : Nat) (_hb : 2 ≤ b) :
    ∀ ds, ds ≠ [] → (∀ d, ds.getLast? = some d → d ≠ 0) →
      b ^ (ds.length - 1) ≤ ofBaseLE b ds := by
  intro ds
  induction ds with
  | nil => intro h; exact absurd rfl h
  | cons x xs ih =>
    intro _ hlast
    by_cases hxs : xs = []
    · subst hxs
      have hx := hlast x (by simp)
      have hval : ofBaseLE b [x] = x := by simp [ofBaseLE]
      rw [hval]
      simpa using Nat.one_le_iff_ne_zero.mpr hx
    · have hlast' : ∀ d, xs.getLast? = some d → d ≠ 0 := by
        intro d hd
        apply hlast d
        rw [getLast?_cons_of_ne _ _ hxs]
        exact hd
      have hih := ih hxs hlast'
      rw [ofBaseLE]
      simp only [List.length_cons, Nat.add_sub_cancel]
      obtain ⟨y, ys, hys⟩ : ∃ y ys, xs = y :: ys := by
        cases xs with
        | nil => exact absurd rfl hxs
        | cons y ys => exact ⟨y, ys, rfl⟩
      subst hys
      simp only [List.length_cons, Nat.add_sub_cancel] at hih ⊢
      calc b ^ (ys.length + 1) = b * b ^ ys.length := by rw [pow_succ]; ring
      _ ≤ b * ofBaseLE b (y :: ys) := Nat.mul_le_mul (le_refl b) hih
      _ ≤ x + b * ofBaseLE b (y :: ys) := by omega

/-- Trailing zero digits do not change the value. -/
theorem ofBaseLE_append_replicate_zero (b : Nat) :
    ∀ ds k, ofBaseLE b (ds ++ List.replicate k 0) = ofBaseLE b ds := by
  intro ds
  induction ds with
  | nil =>
    intro k
    induction k with
    | zero => rfl
    | succ n ihk =>
      simp only [List.nil_append] at ihk ⊢
      rw [List.replicate_succ]
      simp only [ofBaseLE] at ihk ⊢
      rw [ihk]
      simp [ofBaseLE]
  | cons x xs ih =>
    intro k
    rw [List.cons_append, ofBaseLE, ofBaseLE, ih]

/-! ## base58btc multibase codec

Modelled from the spec (§4.1, §6 wire formats): Bitcoin base-58 alphabet over
the big-endian value of the byte string, one `'1'` per leading zero byte, the
whole prefixed with the multibase header `z`. This is the behaviour of
`multi.base58btc` in the external `@herculas/vc-data-integrity` package. -/

/-- The Bitcoin base-58 alphabet, as code points. -/
def B58CHARS : List Nat :=
  strCodes "123456789ABCDEFGHJKLMNPQRSTUVWXYZabcdefghijkmnopqrstuvwxyz"

/-- Code point of base-58 digit `d`. -/
def b58Char (d : Nat) : Nat := B58CHARS.getD d 49

/-- Base-58 digit value of a code point, `none` if not in the alphabet. -/
def b58Digit (c : Nat) : Option Nat := B58CHARS.findIdx? (fun x => x == c)

theorem b58Digit_b58Char : ∀ d < 58, b58Digit (b58Char d) = some d := by decide

theorem b58Char_lt (d : Nat) (hd : d < 58) : b58Char d < 256 := by
  revert d hd; decide

theorem b58Char_eq_one_iff : ∀ d < 58, (b58Char d = 49 ↔ d = 0) := by decide

/-- Number of leading zero entries. -/
def leadingCount (v : Nat) : List Nat → Nat
  | [] => 0
  | x :: xs => if x = v then leadingCount v xs + 1 else 0

/-- base58btc multibase encoding of a byte string. -/
def base58btcEncode (bs : List Nat) : Str :=
  let z := leadingCount 0 bs
  let n := ofBaseLE 256 bs.reverse
  let ds := toBaseLE 58 (2 * bs.length) n
  122 :: (List.replicate z 49 ++ (ds.reverse.map b58Char))

/-- Map every code point to its base-58 digit, failing on foreign characters. -/
def b58Digits : List Nat → Option (List Nat)
  | [] => some []
  | c :: cs =>
    match b58Digit c, b58Digits cs with
    | some d, some ds => some (d :: ds)
    | _, _ => none

/-- base58btc multibase decoding; validates the leading `z` header. -/
def base58btcDecode (s : Str) : Except ErrorCode (List Nat) :=
  match s with
  | [] => .error .DECODING_ERROR
  | c :: cs =>
    if c = 122 then
      match b58Digits cs with
      | none => .error .DECODING_ERROR
      | some ds =>
        let z := leadingCount 49 cs
        let n := ofBaseLE 58 ds.reverse
        .ok (List.replicate z 0 ++ (toBaseLE 256 ds.length n).reverse)
    else .error .DECODING_ERROR

theorem b58Digits_append (xs ys : List Nat) (dxs dys : List Nat)
    (hx : b58Digits xs = some dxs) (hy : b58Digits ys = some dys) :
    b58Digits (xs ++ ys) = some (dxs ++ dys) := by
  induction xs generalizing dxs with
  | nil =>
    simp only [b58Digits, Option.some.injEq] at hx
    subst hx
    simpa using hy
  | cons c cs ih =>
    simp only [b58Digits] at hx
    cases hc : b58Digit c with
    | none => rw [hc] at hx; simp at hx
    | some d =>
      rw [hc] at hx
      cases hcs : b58Digits cs with
      | none => rw [hcs] at hx; simp at hx
      | some ds =>
        rw [hcs] at hx
        simp only [Option.some.injEq] at hx
        subst hx
        show b58Digits (c :: (cs ++ ys)) = _
        simp only [b58Digits, hc, ih ds hcs]
        simp

theorem b58Digits_replicate_one (z : Nat) :
    b58Digits (List.replicate z 49) = some (List.replicate z 0) := by
  induction z with
  | zero => rfl
  | succ n ih =>
    rw [List.replicate_succ, List.replicate_succ]
    simp only [b58Digits, ih]
    rfl

theorem b58Digits_map_b58Char (ds : List Nat) (h : ∀ d ∈ ds, d < 58) :
    b58Digits (ds.map b58Char) = some ds := by
  induction ds with
  | nil => rfl
  | cons d ds ih =>
    simp only [List.map_cons, b58Digits]
    rw [b58Digit_b58Char d (h d (List.mem_cons_self d ds)),
      ih (fun x hx => h x (List.mem_cons_of_mem _ hx))]

theorem leadingCount_replicate_append (v : Nat) (z : Nat) (xs : List Nat)
    (h : ∀ y, xs.head? = some y → y ≠ v) :
    leadingCount v (List.replicate z v ++ xs) = z := by
  induction z with
  | zero =>
    simp only [List.replicate_zero, List.nil_append]
    cases xs with
    | nil => rfl
    | cons y ys =>
      have := h y rfl
      simp [leadingCount, this]
  | succ n ih =>
    rw [List.replicate_succ, List.cons_append]
    simp [leadingCount, ih]

/-- Splitting a list at its leading zeros. -/
theorem leadingCount_split (v : Nat) :
    ∀ bs : List Nat, ∃ rest, bs = List.replicate (leadingCount v bs) v ++ rest ∧
      (∀ y, rest.head? = some y → y ≠ v) := by
  intro bs
  induction bs with
  | nil => exact ⟨[], by simp [leadingCount]⟩
  | cons x xs ih =>
    by_cases hx : x = v
    · obtain ⟨rest, hsplit, hhead⟩ := ih
      subst hx
      refine ⟨rest, ?_, hhead⟩
      have hstep : leadingCount x (x :: xs) = leadingCount x xs + 1 := by
        simp [leadingCount]
      rw [hstep, List.replicate_succ, List.cons_append]
      exact congrArg (x :: ·) hsplit
    · refine ⟨x :: xs, ?_, ?_⟩
      · simp [leadingCount, hx]
      · intro y hy
        simp only [List.head?_cons, Option.some_inj] at hy
        omega

/-- Round trip of the modelled base58btc codec on byte strings. -/
theorem base58btcDecode_base58btcEncode (bs : List Nat) (h : allBytes bs) :
    base58btcDecode (base58btcEncode bs) = .ok bs := by
  obtain ⟨rest, hsplit, hhead⟩ := leadingCount_split 0 bs
  set z := leadingCount 0 bs with hz
  -- the big-endian value ignores the leading zeros
  have hrev : bs.reverse = rest.reverse ++ List.replicate z 0 := by
    rw [hsplit, List.reverse_append, List.reverse_replicate]
  have hval : ofBaseLE 256 bs.reverse = ofBaseLE 256 rest.reverse := by
    rw [hrev, ofBaseLE_append_replicate_zero]
  set n := ofBaseLE 256 bs.reverse with hn
  have hrest_bytes : ∀ x ∈ rest.reverse, x < 256 := by
    intro x hx
    apply h
    rw [hsplit]
    exact List.mem_append_right _ (List.mem_reverse.mp hx)
  have hnlt : n < 256 ^ bs.length := by
    rw [hn]
    have := ofBaseLE_le_bound 256 (by omega) bs.reverse (by
      intro x hx; exact h x (List.mem_reverse.mp hx))
    simpa using this
  have hnlt58 : n < 58 ^ (2 * bs.length) := by
    calc n < 256 ^ bs.length := hnlt
    _ ≤ (58 ^ 2) ^ bs.length := Nat.pow_le_pow_left (by omega) _
    _ = 58 ^ (2 * bs.length) := by rw [← pow_mul, Nat.mul_comm]
  set ds := toBaseLE 58 (2 * bs.length) n with hds
  have hds_lt : ∀ d ∈ ds, d < 58 := fun d hd =>
    toBaseLE_digits_lt 58 (by omega) _ n d hd
  have hds_last : ∀ d, ds.getLast? = some d → d ≠ 0 := fun d hd =>
    toBaseLE_getLast_ne_zero 58 (by omega) _ n hnlt58 d hd
  -- decoding begins: strip `z`, read the digits back
  rw [base58btcEncode, base58btcDecode]
  simp only [if_pos rfl]
  have hdigits : b58Digits (List.replicate z 49 ++ ds.reverse.map b58Char) =
      some (List.replicate z 0 ++ ds.reverse) := by
    apply b58Digits_append
    · exact b58Digits_replicate_one z
    · rw [b58Digits_map_b58Char]
      intro d hd
      exact hds_lt d (List.mem_reverse.mp hd)
  rw [hdigits]
  -- the leading `1` count of the encoded string is exactly `z`
  have hones : leadingCount 49 (List.replicate z 49 ++ ds.reverse.map b58Char) = z := by
    apply leadingCount_replicate_append
    intro y hy hy49
    cases hds_rev : ds.reverse with
    | nil => rw [hds_rev] at hy; simp at hy
    | cons d0 drest =>
      rw [hds_rev] at hy
      simp only [List.map_cons, List.head?_cons, Option.some_inj] at hy
      have hd0_mem : d0 ∈ ds := by
        rw [← List.mem_reverse, hds_rev]; exact List.mem_cons_self _ _
      have hd0_lt : d0 < 58 := hds_lt d0 hd0_mem
      have hd0_last : ds.getLast? = some d0 := by
        rw [← List.head?_reverse, hds_rev]; rfl
      have := hds_last d0 hd0_last
      rw [← hy] at hy49
      exact this ((b58Char_eq_one_iff d0 hd0_lt).mp hy49)
  rw [hones]
  -- the numeric value is reconstructed
  simp only [List.reverse_append, List.reverse_reverse, List.reverse_replicate]
  have hval2 : ofBaseLE 58 (ds ++ List.replicate z 0) = ofBaseLE 58 ds := by
    rw [ofBaseLE_append_replicate_zero]
  rw [hval2, ofBaseLE_toBaseLE 58 (by omega) _ n hnlt58]
  -- and the minimal big-endian bytes are exactly `rest`
  have hlen_digits : (List.replicate z 0 ++ ds.reverse).length = z + ds.length := by
    simp
  rw [hlen_digits]
  by_cases hrest : rest = []
  · -- all of `bs` is zeros: the numeric part is empty
    subst hrest
    have hn0 : n = 0 := by rw [hval]; rfl
    rw [hn0, toBaseLE_zero]
    simp only [List.reverse_nil, List.append_nil]
    rw [hsplit]
    simp
  · have hrest_rev_ne : rest.reverse ≠ [] := by
      intro hcon
      exact hrest (by simpa using congrArg List.reverse hcon)
    have hrest_last : ∀ d, rest.reverse.getLast? = some d → d ≠ 0 := by
      intro d hd
      rw [List.getLast?_reverse] at hd
      exact hhead d hd
    have hn_lower : 256 ^ (rest.reverse.length - 1) ≤ n := by
      rw [hval]
      exact ofBaseLE_lower_bound 256 (by omega) rest.reverse hrest_rev_ne hrest_last
    have hn_upper : n < 58 ^ ds.length := by
      rw [hds]
      exact toBaseLE_lt_pow_length 58 (by omega) _ n hnlt58
    have hlen_le : rest.reverse.length ≤ ds.length := by
      by_contra hgt
      push_neg at hgt
      have h1 : ds.length ≤ rest.reverse.length - 1 := by omega
      have h2 : 58 ^ ds.length ≤ 256 ^ ds.length := Nat.pow_le_pow_left (by omega) _
      have h3 : (256 : Nat) ^ ds.length ≤ 256 ^ (rest.reverse.length - 1) :=
        Nat.pow_le_pow_right (by omega) h1
      omega
    have hmin : toBaseLE 256 (z + ds.length) n = rest.reverse := by
      rw [hval]
      apply toBaseLE_ofBaseLE 256 (by omega) rest.reverse (z + ds.length)
        hrest_bytes hrest_last (by omega)
    rw [hmin, List.reverse_reverse, ← hsplit]
    simp

/-! ## base64url-no-pad multibase codec

Modelled from the spec (§4.1): RFC 4648 §5 without padding, multibase header
`u`. This is the behaviour of `multi.base64urlnopad` in the external
`@herculas/vc-data-integrity` package. -/

/-- The base64url alphabet, as code points. -/
def B64CHARS : List Nat :=
  strCodes "ABCDEFGHIJKLMNOPQRSTUVWXYZabcdefghijklmnopqrstuvwxyz0123456789-_"

/-- Code point of base-64 digit `d`. -/
def b64Char (d : Nat) : Nat := B64CHARS.getD d 65

/-- Base-64 digit value of a code point, `none` if not in the alphabet. -/
def b64Digit (c : Nat) : Option Nat := B64CHARS.findIdx? (fun x => x == c)

theorem b64Digit_b64Char : ∀ d < 64, b64Digit (b64Char d) = some d := by decide

/-- Encode the body (everything after the `u` header), three bytes to four
characters, with truncated final groups and no padding. -/
def base64Body : List Nat → List Nat
  | [] => []
  | [a] => [b64Char (a / 4), b64Char (a % 4 * 16)]
  | [a, b] => [b64Char (a / 4), b64Char (a % 4 * 16 + b / 16), b64Char (b % 16 * 4)]
  | a :: b :: c :: rest =>
    b64Char (a / 4) :: b64Char (a % 4 * 16 + b / 16) ::
      b64Char (b % 16 * 4 + c / 64) :: b64Char (c % 64) :: base64Body rest

/-- base64url-no-pad multibase encoding of a byte string: `u` then the body. -/
def base64urlnopadEncode (bs : List Nat) : Str := 117 :: base64Body bs

/-- Decode a base64url body, four characters to three bytes. -/
def base64ParseBody : List Nat → Option (List Nat)
  | [] => some []
  | [_] => none
  | [c1, c2] => do
      let d1 ← b64Digit c1
      let d2 ← b64Digit c2
      some [d1 * 4 + d2 / 16]
  | [c1, c2, c3] => do
      let d1 ← b64Digit c1
      let d2 ← b64Digit c2
      let d3 ← b64Digit c3
      some [d1 * 4 + d2 / 16, d2 % 16 * 16 + d3 / 4]
  | c1 :: c2 :: c3 :: c4 :: rest => do
      let d1 ← b64Digit c1
      let d2 ← b64Digit c2
      let d3 ← b64Digit c3
      let d4 ← b64Digit c4
      let tl ← base64ParseBody rest
      some ((d1 * 4 + d2 / 16) :: (d2 % 16 * 16 + d3 / 4) :: (d3 % 4 * 64 + d4) :: tl)

/-- base64url-no-pad multibase decoding; validates the leading `u` header. -/
def base64urlnopadDecode (s : Str) : Except ErrorCode (List Nat) :=
  match s with
  | [] => .error .DECODING_ERROR
  | c :: cs =>
    if c = 117 then
      match base64ParseBody cs with
      | some bs => .ok bs
      | none => .error .DECODING_ERROR
    else .error .DECODING_ERROR

theorem base64ParseBody_base64Body (bs : List Nat) (h : allBytes bs) :
    base64ParseBody (base64Body bs) = some bs := by
  induction bs using base64Body.induct with
  | case1 => rfl
  | case2 a =>
    have ha : a < 256 := h a (by simp)
    rw [base64Body]
    have h1 : a / 4 < 64 := by omega
    have h2 : a % 4 * 16 < 64 := by omega
    rw [base64ParseBody, b64Digit_b64Char _ h1, b64Digit_b64Char _ h2]
    simp
    omega
  | case3 a b =>
    have ha : a < 256 := h a (by simp)
    have hb : b < 256 := h b (by simp)
    rw [base64Body]
    have h1 : a / 4 < 64 := by omega
    have h2 : a % 4 * 16 + b / 16 < 64 := by omega
    have h3 : b % 16 * 4 < 64 := by omega
    rw [base64ParseBody, b64Digit_b64Char _ h1, b64Digit_b64Char _ h2,
      b64Digit_b64Char _ h3]
    simp
    omega
  | case4 a b c rest ih =>
    have ha : a < 256 := h a (by simp)
    have hb : b < 256 := h b (by simp)
    have hc : c < 256 := h c (by simp)
    have hrest : allBytes rest := by
      intro x hx
      exact h x (by simp [hx])
    rw [base64Body]
    have h1 : a / 4 < 64 := by omega
    have h2 : a % 4 * 16 + b / 16 < 64 := by omega
    have h3 : b % 16 * 4 + c / 64 < 64 := by omega
    have h4 : c % 64 < 64 := by omega
    rw [base64ParseBody, b64Digit_b64Char _ h1, b64Digit_b64Char _ h2,
      b64Digit_b64Char _ h3, b64Digit_b64Char _ h4, ih hrest]
    simp
    omega

/-- Round trip of the modelled base64url-no-pad codec on byte strings. -/
theorem base64urlnopadDecode_encode (bs : List Nat) (h : allBytes bs) :
    base64urlnopadDecode (base64urlnopadEncode bs) = .ok bs := by
  rw [base64urlnopadEncode, base64urlnopadDecode]
  rw [base64ParseBody_base64Body bs h]
  simp

/-! ## UTF-8

`TextEncoder().encode` on a JavaScript string is modelled as UTF-8 encoding of
the code-point sequence. -/

/-- UTF-8 encoding of a single Unicode code point. -/
def utf8EncodeChar (n : Nat) : List Nat :=
  if n < 128 then [n]
  else if n < 2048 then [192 + n / 64, 128 + n % 64]
  else if n < 65536 then [224 + n / 4096, 128 + n / 64 % 64, 128 + n % 64]
  else [240 + n / 262144, 128 + n / 4096 % 64, 128 + n / 64 % 64, 128 + n % 64]

/-- UTF-8 encoding of a code-point sequence (the model of `TextEncoder`). -/
def utf8Encode (cs : Str) : List Nat := (cs.map utf8EncodeChar).flatten

/-- A UTF-8 continuation byte. -/
def isCont (b : Nat) : Prop := 128 ≤ b ∧ b < 192

instance (b : Nat) : Decidable (isCont b) := by unfold isCont; infer_instance

/-- Fuelled UTF-8 decoding back to code points (used by the modelled CBOR text
decoder); lenient about overlong forms, which never arise on our encodings.
The fuel only has to dominate the number of decoded characters. -/
def utf8DecodeF : Nat → List Nat → Option (List Nat)
  | 0, bs => if bs = [] then some [] else none
  | fuel + 1, bs =>
    if bs = [] then some []
    else
      let b1 := bs.headD 0
      let rest := bs.tail
      if b1 < 128 then (utf8DecodeF fuel rest).map (fun cs => b1 :: cs)
      else if b1 < 192 then none
      else if b1 < 224 then
        if rest = [] then none
        else
          let b2 := rest.headD 0
          if isCont b2 then
            (utf8DecodeF fuel rest.tail).map
              (fun cs => ((b1 - 192) * 64 + (b2 - 128)) :: cs)
          else none
      else if b1 < 240 then
        if rest.length < 2 then none
        else
          let b2 := rest.headD 0
          let b3 := rest.tail.headD 0
          if isCont b2 ∧ isCont b3 then
            (utf8DecodeF fuel rest.tail.tail).map
              (fun cs => ((b1 - 224) * 4096 + (b2 - 128) * 64 + (b3 - 128)) :: cs)
          else none
      else
        if rest.length < 3 then none
        else
          let b2 := rest.headD 0
          let b3 := rest.tail.headD 0
          let b4 := rest.tail.tail.headD 0
          if isCont b2 ∧ isCont b3 ∧ isCont b4 then
            (utf8DecodeF fuel rest.tail.tail.tail).map
              (fun cs =>
                ((b1 - 240) * 262144 + (b2 - 128) * 4096 + (b3 - 128) * 64 + (b4 - 128)) :: cs)
          else none

/-- UTF-8 decoding: the fuel is the byte count, which dominates the number of
characters. -/
def utf8Decode (bs : List Nat) : Option (List Nat) := utf8DecodeF bs.length bs

/-- A valid Unicode scalar value: in range and not a surrogate. -/
def isScalar (n : Nat) : Prop := n < 1114112 ∧ ¬(55296 ≤ n ∧ n < 57344)

instance (n : Nat) : Decidable (isScalar n) := by unfold isScalar; infer_instance

/-- A string all of whose code points are Unicode scalar values. -/
def scalarStr (cs : Str) : Prop := ∀ c ∈ cs, isScalar c

instance (cs : Str) : Decidable (scalarStr cs) := by unfold scalarStr; infer_instance

theorem utf8EncodeChar_bytes (n : Nat) (h : n < 1114112) :
    allBytes (utf8EncodeChar n) := by
  intro x hx
  rw [utf8EncodeChar] at hx
  split_ifs at hx with h1 h2 h3
  · rw [List.mem_singleton] at hx; omega
  · simp only [List.mem_cons, List.not_mem_nil, or_false] at hx
    rcases hx with rfl | rfl <;> omega
  · simp only [List.mem_cons, List.not_mem_nil, or_false] at hx
    rcases hx with rfl | rfl | rfl <;> omega
  · simp only [List.mem_cons, List.not_mem_nil, or_false] at hx
    rcases hx with rfl | rfl | rfl | rfl <;> omega

theorem utf8Encode_bytes (cs : Str) (h : ∀ c ∈ cs, c < 1114112) :
    allBytes (utf8Encode cs) := by
  intro x hx
  rw [utf8Encode] at hx
  rw [List.mem_flatten] at hx
  obtain ⟨l, hl, hxl⟩ := hx
  rw [List.mem_map] at hl
  obtain ⟨c, hc, hcl⟩ := hl
  exact utf8EncodeChar_bytes c (h c hc) x (hcl ▸ hxl)

theorem utf8DecodeF_nil (fuel : Nat) : utf8DecodeF fuel [] = some [] := by
  cases fuel <;> simp [utf8DecodeF]

/-- One decoding step consumes exactly one encoded character. -/
theorem utf8DecodeF_encodeChar (f n : Nat) (hn : n < 1114112) (rest : List Nat) :
    utf8DecodeF (f + 1) (utf8EncodeChar n ++ rest) =
      (utf8DecodeF f rest).map (fun cs => n :: cs) := by
  rw [utf8EncodeChar]
  split_ifs with h1 h2 h3
  · rw [List.cons_append, List.nil_append, utf8DecodeF]
    simp only [List.headD_cons, List.tail_cons, reduceCtorEq, if_neg, if_pos h1,
      List.cons_ne_nil, ite_false]
  · rw [List.cons_append, List.cons_append, List.nil_append, utf8DecodeF]
    have c1 : ¬(192 + n / 64 < 128) := by omega
    have c2 : ¬(192 + n / 64 < 192) := by omega
    have c3 : 192 + n / 64 < 224 := by omega
    have c4 : isCont (128 + n % 64) := by unfold isCont; omega
    have heq : (192 + n / 64 - 192) * 64 + (128 + n % 64 - 128) = n := by omega
    simp only [List.headD_cons, List.tail_cons, List.cons_ne_nil, ite_false,
      if_neg c1, if_neg c2, if_pos c3, if_pos c4, heq]
  · rw [List.cons_append, List.cons_append, List.cons_append, List.nil_append,
      utf8DecodeF]
    have c1 : ¬(224 + n / 4096 < 128) := by omega
    have c2 : ¬(224 + n / 4096 < 192) := by omega
    have c3 : ¬(224 + n / 4096 < 224) := by omega
    have c4 : 224 + n / 4096 < 240 := by omega
    have c5 : isCont (128 + n / 64 % 64) ∧ isCont (128 + n % 64) := by
      unfold isCont; omega
    have heq : (224 + n / 4096 - 224) * 4096 + (128 + n / 64 % 64 - 128) * 64 +
        (128 + n % 64 - 128) = n := by omega
    simp only [List.headD_cons, List.tail_cons, List.cons_ne_nil, ite_false,
      List.length_cons, if_neg c1, if_neg c2, if_neg c3, if_pos c4, if_pos c5, heq]
    rw [if_neg (show ¬rest.length + 1 + 1 < 2 by omega)]
  · rw [List.cons_append, List.cons_append, List.cons_append, List.cons_append,
      List.nil_append, utf8DecodeF]
    have c1 : ¬(240 + n / 262144 < 128) := by omega
    have c2 : ¬(240 + n / 262144 < 192) := by omega
    have c3 : ¬(240 + n / 262144 < 224) := by omega
    have c4 : ¬(240 + n / 262144 < 240) := by omega
    have c5 : isCont (128 + n / 4096 % 64) ∧ isCont (128 + n / 64 % 64) ∧
        isCont (128 + n % 64) := by unfold isCont; omega
    have heq : (240 + n / 262144 - 240) * 262144 + (128 + n / 4096 % 64 - 128) * 4096 +
        (128 + n / 64 % 64 - 128) * 64 + (128 + n % 64 - 128) = n := by omega
    simp only [List.headD_cons, List.tail_cons, List.cons_ne_nil, ite_false,
      List.length_cons, if_neg c1, if_neg c2, if_neg c3, if_neg c4, if_pos c5, heq]
    rw [if_neg (show ¬rest.length + 1 + 1 + 1 < 3 by omega)]

theorem utf8EncodeChar_length_pos (n : Nat) : 1 ≤ (utf8EncodeChar n).length := by
  rw [utf8EncodeChar]
  split_ifs <;> simp

/-- Round trip of the fuelled UTF-8 codec, for any fuel dominating the byte
count. -/
theorem utf8DecodeF_utf8Encode (cs : Str) :
    ∀ fuel, (∀ c ∈ cs, c < 1114112) → (utf8Encode cs).length ≤ fuel →
    utf8DecodeF fuel (utf8Encode cs) = some cs := by
  induction cs with
  | nil => intro fuel _ _; exact utf8DecodeF_nil fuel
  | cons c cs ih =>
    intro fuel h hlen
    have hc : c < 1114112 := h c (List.mem_cons_self c cs)
    have henc : utf8Encode (c :: cs) = utf8EncodeChar c ++ utf8Encode cs := by
      rw [utf8Encode, List.map_cons, List.flatten_cons]
      rfl
    rw [henc] at hlen ⊢
    have hchar := utf8EncodeChar_length_pos c
    have hfuel : ∃ f, fuel = f + 1 := by
      refine ⟨fuel - 1, ?_⟩
      rw [List.length_append] at hlen
      omega
    obtain ⟨f, rfl⟩ := hfuel
    rw [utf8DecodeF_encodeChar f c hc]
    rw [ih f (fun x hx => h x (List.mem_cons_of_mem _ hx)) (by
      rw [List.length_append] at hlen
      omega)]
    rfl

/-- Round trip of the modelled UTF-8 codec on code-point sequences. -/
theorem utf8Decode_utf8Encode (cs : Str) (h : ∀ c ∈ cs, c < 1114112) :
    utf8Decode (utf8Encode cs) = some cs :=
  utf8DecodeF_utf8Encode cs (utf8Encode cs).length h (le_refl _)

/-! ## Hex decoding (`format.hexToBytes`, spec §4.1: total, no leading 0x) -/

/-- Value of one hex digit code point (total; foreign characters give 0, which
never happens on the repository's constants). -/
def hexDigitVal (c : Nat) : Nat :=
  if 48 ≤ c ∧ c ≤ 57 then c - 48
  else if 97 ≤ c ∧ c ≤ 102 then c - 87
  else if 65 ≤ c ∧ c ≤ 70 then c - 55
  else 0

/-- Decode pairs of hex characters into bytes. -/
def hexPairs : List Nat → List Nat
  | c1 :: c2 :: rest => (hexDigitVal c1 * 16 + hexDigitVal c2) :: hexPairs rest
  | _ => []

/-- `format.hexToBytes` applied to a string literal. -/
def hexToBytes (s : String) : List Nat := hexPairs (strCodes s)

/-! ## Constants (`src/constant/prefix.ts`, `src/constant/suite.ts`)

`Curve` is a TypeScript string enum (`"P-256" | "P-384"`), and `Flag` is
`"public" | "private"`; both are modelled as `Str` so that code paths for
unexpected values stay expressible. The constant `Map` tables are modelled as
functions returning `Option`. -/

def P256 : Str := strCodes "P-256"

def P384 : Str := strCodes "P-384"

def FLAG_PUBLIC : Str := strCodes "public"

def FLAG_PRIVATE : Str := strCodes "private"

/-- `PREFIX_CONSTANT.MULTIBASE`: two-byte multicodec varint headers, as hex
strings (`prefix.ts` lines 14-47 and 157-172). -/
def MULTIBASE (flag curve : Str) : Option String :=
  if flag = FLAG_PUBLIC then
    if curve = P256 then some "8024"
    else if curve = P384 then some "8124"
    else none
  else if flag = FLAG_PRIVATE then
    if curve = P256 then some "8626"
    else if curve = P384 then some "8726"
    else none
  else none

/-- `PREFIX_CONSTANT.DER_UNCOMPRESSED` (`prefix.ts` lines 59, 71, 110, 125 and
191-206). -/
def DER_UNCOMPRESSED (flag curve : Str) : Option String :=
  if flag = FLAG_PUBLIC then
    if curve = P256 then some "3059301306072a8648ce3d020106082a8648ce3d03010703420004"
    else if curve = P384 then some "3076301006072a8648ce3d020106052b8104002203620004"
    else none
  else if flag = FLAG_PRIVATE then
    if curve = P256 then
      some "308187020100301306072a8648ce3d020106082a8648ce3d030107046d306b0201010420"
    else if curve = P384 then
      some "3081b6020100301006072a8648ce3d020106052b8104002204819e30819b0201010430"
    else none
  else none

/-- `PREFIX_CONSTANT.DER_COMPRESSED` (`prefix.ts` lines 83, 95, 140, 155 and
174-189). -/
def DER_COMPRESSED (flag curve : Str) : Option String :=
  if flag = FLAG_PUBLIC then
    if curve = P256 then some "3039301306072a8648ce3d020106082a8648ce3d030107032200"
    else if curve = P384 then some "3046301006072a8648ce3d020106052b81040022033200"
    else none
  else if flag = FLAG_PRIVATE then
    if curve = P256 then
      some "3067020100301306072a8648ce3d020106082a8648ce3d030107044d304b0201010420"
    else if curve = P384 then
      some "308184020100301006072a8648ce3d020106052b81040022046d306b0201010430"
    else none
  else none

/-- `SUITE_CONSTANT.KEY_UNCOMPRESSED_LENGTH` (`suite.ts` lines 22-25). -/
def KEY_UNCOMPRESSED_LENGTH (flag curve : Str) : Option Nat :=
  if flag = FLAG_PUBLIC then
    if curve = P256 then some 64 else if curve = P384 then some 96 else none
  else if flag = FLAG_PRIVATE then
    if curve = P256 then some 32 else if curve = P384 then some 48 else none
  else none

/-- `SUITE_CONSTANT.KEY_COMPRESSED_LENGTH` (`suite.ts` lines 27-30). -/
def KEY_COMPRESSED_LENGTH (flag curve : Str) : Option Nat :=
  if flag = FLAG_PUBLIC then
    if curve = P256 then some 33 else if curve = P384 then some 49 else none
  else if flag = FLAG_PRIVATE then
    if curve = P256 then some 32 else if curve = P384 then some 48 else none
  else none

/-- `SUITE_CONSTANT.KEY_MATERIAL_FOOTER_LENGTH` (`suite.ts` line 32). -/
def KEY_MATERIAL_FOOTER_LENGTH : Nat := 6

/-- `SUITE_CONSTANT.KEY_FORMAT` (`suite.ts` lines 17-20). -/
def KEY_FORMAT (flag : Str) : Option String :=
  if flag = FLAG_PUBLIC then some "spki"
  else if flag = FLAG_PRIVATE then some "pkcs8"
  else none

def CBOR_BASE : String := "d95d00"

def CBOR_DERIVED : String := "d95d01"

/-- `PREFIX_CONSTANT.BLANK_LABEL` (`prefix.ts` line 221), as code points. -/
def BLANK_LABEL : Str := strCodes "c14n"

def TYPE_DIP : Str := strCodes "DataIntegrityProof"

def SUITE_RDFC : Str := strCodes "ecdsa-rdfc-2019"

def SUITE_JCS : Str := strCodes "ecdsa-jcs-2019"

def SUITE_SD : Str := strCodes "ecdsa-sd-2023"

def SHA256 : Str := strCodes "SHA-256"

def SHA384 : Str := strCodes "SHA-384"

/-! ## Hash layer (`src/utils/crypto.ts`) -/

/-- `curveToDigestAlgorithm` (`utils/crypto.ts` lines 28-41): the switch over
the `Curve` enum; any other value raises an `EncodingError`. -/
def curveToDigestAlgorithm (curve : Str) : Except ErrorCode Str :=
  if curve = P256 then .ok SHA256
  else if curve = P384 then .ok SHA384
  else .error .ENCODING_ERROR

/-! ## Key layer (`src/key/core.ts`, latest draft) -/

/-- `materialToMultibase`'s compression of an uncompressed public point
(`key/core.ts` lines 199-214): split `x ‖ y`, emit `02`/`03` by the parity of
the last byte of `y`, followed by `x`. -/
def compressPublic (material : List Nat) : List Nat :=
  let x := material.take (material.length / 2)
  let y := material.drop (material.length / 2)
  let lastY := y.getLastD 0
  (if lastY % 2 = 0 then [2] else [3]) ++ x

/-- `materialToMultibase` (`key/core.ts` lines 175-219). -/
def materialToMultibase (material : List Nat) (flag curve : Str) :
    Except ErrorCode Str :=
  match MULTIBASE flag curve, KEY_UNCOMPRESSED_LENGTH flag curve with
  | some mbPrefixHex, some materialLength =>
    if material.length ≠ materialLength then .error .INVALID_KEYPAIR_LENGTH
    else
      let compressedMaterial :=
        if flag = FLAG_PRIVATE then material
        else compressPublic material
      .ok (base58btcEncode (hexToBytes mbPrefixHex ++ compressedMaterial))
  | _, _ => .error .KEYPAIR_EXPORT_ERROR

/-- `multibaseToMaterial` (`key/core.ts` lines 442-478). -/
def multibaseToMaterial (multibase : Str) (flag curve : Str) :
    Except ErrorCode (List Nat) :=
  match base58btcDecode multibase with
  | .error e => .error e
  | .ok multibaseMaterial =>
    match MULTIBASE flag curve, KEY_COMPRESSED_LENGTH flag curve with
    | some mbPrefixHex, some materialLength =>
      let mbPrefixBytes := hexToBytes mbPrefixHex
      if multibaseMaterial.take mbPrefixBytes.length = mbPrefixBytes then
        let material := multibaseMaterial.drop mbPrefixBytes.length
        if material.length ≠ materialLength then .error .INVALID_KEYPAIR_LENGTH
        else .ok material
      else .error .DECODING_ERROR
    | _, _ => .error .KEYPAIR_IMPORT_ERROR

/-! ## CBOR (RFC 8949, definite lengths, preferred serialization, no tags)

Modelled from the spec (§4.1: "CBOR `encode`/`decode` per RFC 8949; tagging
MUST NOT be used on any element of the base or derived proof arrays"); this is
the behaviour of the external `cbor2` package on the concrete component shapes
used by the suite: byte strings, UTF-8 text strings, arrays, maps with
unsigned-integer keys. -/

/-- Big-endian fixed-width byte representation of `n` on `k` bytes. -/
def beBytes (k n : Nat) : List Nat :=
  List.replicate (k - (toBaseLE 256 k n).length) 0 ++ (toBaseLE 256 k n).reverse

/-- Head of a CBOR data item: major type and argument, shortest form. -/
def cborHead (major n : Nat) : List Nat :=
  if n < 24 then [major * 32 + n]
  else if n < 256 then (major * 32 + 24) :: beBytes 1 n
  else if n < 65536 then (major * 32 + 25) :: beBytes 2 n
  else if n < 4294967296 then (major * 32 + 26) :: beBytes 4 n
  else (major * 32 + 27) :: beBytes 8 n

/-- Parse a CBOR head of the expected major type, returning the argument and
the remaining input. -/
def parseHead (major : Nat) : List Nat → Option (Nat × List Nat)
  | [] => none
  | b :: rest =>
    if b / 32 ≠ major then none
    else
      if b % 32 < 24 then some (b % 32, rest)
      else if b % 32 = 24 then
        if 1 ≤ rest.length then
          some (ofBaseLE 256 (rest.take 1).reverse, rest.drop 1)
        else none
      else if b % 32 = 25 then
        if 2 ≤ rest.length then
          some (ofBaseLE 256 (rest.take 2).reverse, rest.drop 2)
        else none
      else if b % 32 = 26 then
        if 4 ≤ rest.length then
          some (ofBaseLE 256 (rest.take 4).reverse, rest.drop 4)
        else none
      else if b % 32 = 27 then
        if 8 ≤ rest.length then
          some (ofBaseLE 256 (rest.take 8).reverse, rest.drop 8)
        else none
      else none

/-- CBOR byte string (major type 2). -/
def cborBytesItem (bs : List Nat) : List Nat := cborHead 2 bs.length ++ bs

/-- CBOR text string (major type 3): UTF-8 bytes of the code points. -/
def cborTextItem (cs : Str) : List Nat :=
  let bs := utf8Encode cs
  cborHead 3 bs.length ++ bs

/-- CBOR unsigned integer (major type 0). -/
def cborUIntItem (n : Nat) : List Nat := cborHead 0 n

/-- Parse a CBOR byte string. -/
def parseBytesItem (input : List Nat) : Option (List Nat × List Nat) :=
  match parseHead 2 input with
  | some (len, rest) =>
    if len ≤ rest.length then some (rest.take len, rest.drop len) else none
  | none => none

/-- Parse a CBOR text string back into code points. -/
def parseTextItem (input : List Nat) : Option (Str × List Nat) :=
  match parseHead 3 input with
  | some (len, rest) =>
    if len ≤ rest.length then
      match utf8Decode (rest.take len) with
      | some cs => some (cs, rest.drop len)
      | none => none
    else none
  | none => none

/-- Parse a CBOR unsigned integer. -/
def parseUIntItem (input : List Nat) : Option (Nat × List Nat) := parseHead 0 input

/-- Parse `k` consecutive items with the given item parser. -/
def parseListOf {α : Type} (p : List Nat → Option (α × List Nat)) :
    Nat → List Nat → Option (List α × List Nat)
  | 0, input => some ([], input)
  | k + 1, input =>
    match p input with
    | some (x, rest) =>
      match parseListOf p k rest with
      | some (xs, rest2) => some (x :: xs, rest2)
      | none => none
    | none => none

/-- Parse a CBOR map entry `uint ↦ bytes` (the compressed label map shape). -/
def parsePairItem (input : List Nat) : Option ((Nat × List Nat) × List Nat) :=
  match parseUIntItem input with
  | some (k, rest) =>
    match parseBytesItem rest with
    | some (v, rest2) => some ((k, v), rest2)
    | none => none
  | none => none

/-! ## Selective-disclosure proof values
(`src/selective/serialize.ts` — the draft in `unnamed/part_003` —,
`src/selective/label.ts`, and the assertions appended to
`src/selective/prepare.ts`) -/

/-- Components of an ecdsa-sd-2023 base proof value. Strings are code-point
sequences. -/
structure BaseProofValue where
  baseSignature : List Nat
  publicKey : List Nat
  hmacKey : List Nat
  signatures : List (List Nat)
  mandatoryPointers : List Str
deriving DecidableEq

/-- Components of an ecdsa-sd-2023 derived proof value; the label map is kept
in entry order (JavaScript `Map` iteration order). -/
structure DerivedProofValue where
  baseSignature : List Nat
  publicKey : List Nat
  signatures : List (List Nat)
  labelMap : List (Str × Str)
  mandatoryIndexes : List Nat
deriving DecidableEq

/-- `assertBaseProofValue` (appended to `selective/prepare.ts`): length checks
on the five components.  Type-level facts (array-ness, string-ness) hold by
construction in this embedding. -/
def assertBaseProofValue (v : BaseProofValue) : Bool :=
  (v.baseSignature.length == 64 || v.baseSignature.length == 96) &&
  v.publicKey.length == 35 &&
  v.hmacKey.length == 32 &&
  v.signatures.all (fun s => s.length == 64)

/-- `assertCompressedProofValue` (appended to `selective/prepare.ts`): only the
first two components carry length constraints; signatures, label-map entries
and indexes are checked for type only. -/
def assertCompressedProofValue (baseSignature publicKey : List Nat) : Bool :=
  (baseSignature.length == 64 || baseSignature.length == 96) &&
  publicKey.length == 35

/-- JavaScript `parseInt(·, 10)` on the digits of a label suffix: take the
leading decimal digits, `NaN` when there are none. -/
def parseIntDec (s : Str) : Option Nat :=
  let ds := s.takeWhile (fun c => 48 ≤ c && c ≤ 57)
  if ds = [] then none
  else some (ofBaseLE 10 ((ds.map (fun c => c - 48)).reverse))

/-- Decimal string of a natural number (JavaScript number-to-string inside a
template literal). -/
def natToDecStr (n : Nat) : Str :=
  if n = 0 then [48] else (toBaseLE 10 (n + 1) n).reverse.map (fun d => d + 48)

/-- `compressLabelMap` (`selective/label.ts` lines 14-47). Follows the source
order: prefix check, base64url decode of the value, then the `NaN` check. -/
def compressLabelMap : List (Str × Str) → Except ErrorCode (List (Nat × List Nat))
  | [] => .ok []
  | (k, v) :: rest =>
    if k.take BLANK_LABEL.length = BLANK_LABEL then
      match base64urlnopadDecode v with
      | .error e => .error e
      | .ok data =>
        match parseIntDec (k.drop BLANK_LABEL.length) with
        | none => .error .PROOF_GENERATION_ERROR
        | some index =>
          match compressLabelMap rest with
          | .error e => .error e
          | .ok m => .ok ((index, data) :: m)
    else .error .PROOF_GENERATION_ERROR

/-- `decompressLabelMap` (`selective/label.ts` lines 58-76). -/
def decompressLabelMap (compressed : List (Nat × List Nat)) : List (Str × Str) :=
  compressed.map (fun kv =>
    (BLANK_LABEL ++ natToDecStr kv.1, base64urlnopadEncode kv.2))

/-- CBOR encoding of the five base proof components
`[baseSignature, publicKey, hmacKey, signatures, mandatoryPointers]`. -/
def cborEncodeBase (v : BaseProofValue) : List Nat :=
  cborHead 4 5 ++
  cborBytesItem v.baseSignature ++
  cborBytesItem v.publicKey ++
  cborBytesItem v.hmacKey ++
  (cborHead 4 v.signatures.length ++ (v.signatures.map cborBytesItem).flatten) ++
  (cborHead 4 v.mandatoryPointers.length ++
    (v.mandatoryPointers.map cborTextItem).flatten)

/-- CBOR encoding of the five derived proof components
`[baseSignature, publicKey, signatures, compressedLabelMap, mandatoryIndexes]`. -/
def cborEncodeDerived (baseSignature publicKey : List Nat)
    (signatures : List (List Nat)) (compressed : List (Nat × List Nat))
    (mandatoryIndexes : List Nat) : List Nat :=
  cborHead 4 5 ++
  cborBytesItem baseSignature ++
  cborBytesItem publicKey ++
  (cborHead 4 signatures.length ++ (signatures.map cborBytesItem).flatten) ++
  (cborHead 5 compressed.length ++
    (compressed.map (fun kv => cborUIntItem kv.1 ++ cborBytesItem kv.2)).flatten) ++
  (cborHead 4 mandatoryIndexes.length ++
    (mandatoryIndexes.map cborUIntItem).flatten)

/-- `serializeBaseProofValue` (`serialize.ts` lines 30-56): assert, prepend the
`d9 5d 00` header, CBOR-encode, base64url-no-pad multibase encode. -/
def serializeBaseProofValue (v : BaseProofValue) : Except ErrorCode Str :=
  if assertBaseProofValue v then
    .ok (base64urlnopadEncode (hexToBytes CBOR_BASE ++ cborEncodeBase v))
  else .error .ASSERTION_ERROR

/-- `serializeDerivedProofValue` (`serialize.ts` lines 66-94): compress the
label map, assert, prepend the `d9 5d 01` header, CBOR-encode, base64url
multibase encode. -/
def serializeDerivedProofValue (v : DerivedProofValue) : Except ErrorCode Str :=
  match compressLabelMap v.labelMap with
  | .error e => .error e
  | .ok compressed =>
    if assertCompressedProofValue v.baseSignature v.publicKey then
      .ok (base64urlnopadEncode (hexToBytes CBOR_DERIVED ++
        cborEncodeDerived v.baseSignature v.publicKey v.signatures compressed
          v.mandatoryIndexes))
    else .error .ASSERTION_ERROR

/-- CBOR decoding of the base proof components. -/
def cborDecodeBase (input : List Nat) : Option BaseProofValue :=
  match parseHead 4 input with
  | some (arrayLen, r0) =>
    if arrayLen ≠ 5 then none
    else
    match parseBytesItem r0 with
    | some (baseSignature, r1) =>
      match parseBytesItem r1 with
      | some (publicKey, r2) =>
        match parseBytesItem r2 with
        | some (hmacKey, r3) =>
          match parseHead 4 r3 with
          | some (nsig, r4) =>
            match parseListOf parseBytesItem nsig r4 with
            | some (signatures, r5) =>
              match parseHead 4 r5 with
              | some (nptr, r6) =>
                match parseListOf parseTextItem nptr r6 with
                | some (mandatoryPointers, _) =>
                  some ⟨baseSignature, publicKey, hmacKey, signatures,
                    mandatoryPointers⟩
                | none => none
              | none => none
            | none => none
          | none => none
        | none => none
      | none => none
    | none => none
  | _ => none

/-- CBOR decoding of the derived proof components (before label-map
decompression). -/
def cborDecodeDerived (input : List Nat) :
    Option (List Nat × List Nat × List (List Nat) × List (Nat × List Nat) × List Nat) :=
  match parseHead 4 input with
  | some (arrayLen, r0) =>
    if arrayLen ≠ 5 then none
    else
    match parseBytesItem r0 with
    | some (baseSignature, r1) =>
      match parseBytesItem r1 with
      | some (publicKey, r2) =>
        match parseHead 4 r2 with
        | some (nsig, r3) =>
          match parseListOf parseBytesItem nsig r3 with
          | some (signatures, r4) =>
            match parseHead 5 r4 with
            | some (nmap, r5) =>
              match parseListOf parsePairItem nmap r5 with
              | some (compressed, r6) =>
                match parseHead 4 r6 with
                | some (nidx, r7) =>
                  match parseListOf parseUIntItem nidx r7 with
                  | some (mandatoryIndexes, _) =>
                    some (baseSignature, publicKey, signatures, compressed,
                      mandatoryIndexes)
                  | none => none
                | none => none
              | none => none
            | none => none
          | none => none
        | none => none
      | none => none
    | none => none
  | _ => none

/-- `parseBaseProofValue` (`serialize.ts` lines 106-151): base64url multibase
decode (decoding failures become `PROOF_VERIFICATION_ERROR`), header check
against `d9 5d 00`, CBOR decode, assertions. -/
def parseBaseProofValue (proofValue : Str) : Except ErrorCode BaseProofValue :=
  match base64urlnopadDecode proofValue with
  | .error _ => .error .PROOF_VERIFICATION_ERROR
  | .ok decoded =>
    let baseHeader := hexToBytes CBOR_BASE
    if ((decoded.take baseHeader.length).zip baseHeader).all
        (fun p => p.1 == p.2) then
      match cborDecodeBase (decoded.drop baseHeader.length) with
      | some v => if assertBaseProofValue v then .ok v
                  else .error .PROOF_VERIFICATION_ERROR
      | none => .error .PROOF_VERIFICATION_ERROR
    else .error .PROOF_VERIFICATION_ERROR

/-- `parseDerivedProofValue` (`serialize.ts` lines 163-226): base64url
multibase decode, header check against `d9 5d 01`, CBOR decode, assertions,
label-map decompression. -/
def parseDerivedProofValue (proofValue : Str) : Except ErrorCode DerivedProofValue :=
  match base64urlnopadDecode proofValue with
  | .error _ => .error .PROOF_VERIFICATION_ERROR
  | .ok decoded =>
    let derivedHeader := hexToBytes CBOR_DERIVED
    if ((decoded.take derivedHeader.length).zip derivedHeader).all
        (fun p => p.1 == p.2) then
      match cborDecodeDerived (decoded.drop derivedHeader.length) with
      | some (baseSignature, publicKey, signatures, compressed, mandatoryIndexes) =>
        if assertCompressedProofValue baseSignature publicKey then
          .ok ⟨baseSignature, publicKey, signatures,
            decompressLabelMap compressed, mandatoryIndexes⟩
        else .error .PROOF_VERIFICATION_ERROR
      | none => .error .PROOF_VERIFICATION_ERROR
    else .error .PROOF_VERIFICATION_ERROR

/-! ## External collaborators

Web Crypto (`crypto.subtle`), the JavaScript `Date.parse`, the document
loader, and the RDFC/JCS canonicalizers are external to the repository
(spec §6); they are modelled as explicit environments.  `CryptoKey` handles
are opaque and modelled as natural numbers. -/

/-- Web Crypto and `Date.parse`. -/
structure CryptoEnv where
  /-- `crypto.subtle.digest(algorithm, data)`. -/
  digest : Str → List Nat → List Nat
  /-- `crypto.subtle.sign` with hash name, private key handle, data. -/
  signK : Str → Nat → List Nat → List Nat
  /-- `crypto.subtle.verify` with hash name, public key handle, signature, data. -/
  verifyK : Str → Nat → List Nat → List Nat → Bool
  /-- `Date.parse`: `none` models `NaN`. -/
  parseDate : Str → Option Int
  /-- `crypto.subtle.exportKey(format, key)`: the DER export of a handle. -/
  exportKey : String → Nat → List Nat
  /-- `(key.algorithm as EcKeyAlgorithm).namedCurve` of a handle. -/
  keyCurve : Nat → Str
  /-- `crypto.subtle.importKey` on DER public material, giving a handle. -/
  importKey : List Nat → Nat

/-- The elliptic curve keypair value object (`src/key/keypair.ts`), with
`CryptoKey` handles opaque. -/
structure ECKeypairMRec where
  curve : Str
  id : Option Str
  controller : Option Str
  publicKey : Option Nat
  privateKey : Option Nat
deriving DecidableEq

/-- The document loader plus `retrieveVerificationMethod` plus
`ECKeypair.import`: resolving a verification-method id at a curve into an
imported keypair. -/
structure MethodEnv where
  resolveImport : Str → Str → Except ErrorCode ECKeypairMRec

/-- The `ECKeypair` constructor (`keypair.ts` lines 52-55):
`this.curve = _curve ?? Curve.P256`. -/
def ECKeypair_new (curveOpt : Option Str) (idOpt controllerOpt : Option Str) :
    ECKeypairMRec :=
  { curve := curveOpt.getD P256, id := idOpt, controller := controllerOpt,
    publicKey := none, privateKey := none }

/-- The curve defaulting in `ECKeypair.import` (`keypair.ts` lines 155-161):
`options.curve ||= Curve.P256` — a falsy curve (absent or the empty string)
becomes P-256. -/
def importCurveDefault (curveOpt : Option Str) : Str :=
  match curveOpt with
  | none => P256
  | some s => if s = [] then P256 else s

/-- The curve of the keypair produced by `ECKeypair.import` on a Multikey
document: `multibaseToKeypair` (`key/core.ts` lines 400-430) constructs
`new ECKeypair(curve, ...)` with the defaulted curve. -/
def ECKeypair_import_curve (curveOpt : Option Str) : Str :=
  (ECKeypair_new (some (importCurveDefault curveOpt)) none none).curve

/-- The curve defaulting in `createDisclosureData`
(`selective/prepare.ts` line 129): `options?.curve ?? Curve.P256`. -/
def createDisclosureData_curve (curveOpt : Option Str) : Str := curveOpt.getD P256

/-- The digest selected by `createDisclosureData` (`prepare.ts` lines 129-131)
for HMAC reconstruction. -/
def createDisclosureData_algorithm (curveOpt : Option Str) : Except ErrorCode Str :=
  curveToDigestAlgorithm (createDisclosureData_curve curveOpt)

/-- The curve defaulting in `createVerifyData` (`prepare.ts` line 246). -/
def createVerifyData_curve (curveOpt : Option Str) : Str := curveOpt.getD P256

/-- The digest selected by `createVerifyData` (`prepare.ts` lines 246-248) for
proof hashing. -/
def createVerifyData_algorithm (curveOpt : Option Str) : Except ErrorCode Str :=
  curveToDigestAlgorithm (createVerifyData_curve curveOpt)

/-- `keyToMaterial` (`key/core.ts` lines 111-164, the authoritative draft):
check the handle's named curve, the DER prefix and total length, then slice
out the uncompressed material. -/
def keyToMaterial (env : CryptoEnv) (key : Nat) (flag curve : Str) :
    Except ErrorCode (List Nat) :=
  let realCurve := env.keyCurve key
  if realCurve = [] ∨ realCurve ≠ curve then .error .ENCODING_ERROR
  else
    match KEY_FORMAT flag, DER_UNCOMPRESSED flag curve,
      KEY_UNCOMPRESSED_LENGTH flag curve,
      KEY_UNCOMPRESSED_LENGTH FLAG_PUBLIC curve,
      KEY_UNCOMPRESSED_LENGTH FLAG_PRIVATE curve with
    | some keyFormat, some derPrefixHex, some materialLength, some publicLen,
        some privateLen =>
      let derPrefixBytes := hexToBytes derPrefixHex
      let derMaterial := env.exportKey keyFormat key
      if ((derMaterial.take derPrefixBytes.length).zip derPrefixBytes).all
          (fun p => p.1 == p.2) then
        let expectedFullLength := derPrefixBytes.length + publicLen +
          (if flag = FLAG_PRIVATE then privateLen + KEY_MATERIAL_FOOTER_LENGTH else 0)
        if derMaterial.length ≠ expectedFullLength then .error .KEYPAIR_EXPORT_ERROR
        else .ok ((derMaterial.drop derPrefixBytes.length).take materialLength)
      else .error .ENCODING_ERROR
    | _, _, _, _, _ => .error .INVALID_KEYPAIR_CONTENT

/-- `materialToPublicKey` (`key/core.ts` lines 534-579): length check, DER
prefixing, double import. -/
def materialToPublicKey (env : CryptoEnv) (material : List Nat) (curve : Str) :
    Except ErrorCode Nat :=
  match KEY_FORMAT FLAG_PUBLIC, KEY_COMPRESSED_LENGTH FLAG_PUBLIC curve,
    DER_COMPRESSED FLAG_PUBLIC curve with
  | some _, some materialLength, some derPrefixHex =>
    if material.length ≠ materialLength then .error .INVALID_KEYPAIR_LENGTH
    else .ok (env.importKey (hexToBytes derPrefixHex ++ material))
  | _, _, _ => .error .KEYPAIR_IMPORT_ERROR

/-- `ECKeypair.generateFingerprint` (`keypair.ts` lines 78-88). -/
def generateFingerprint (env : CryptoEnv) (kp : ECKeypairMRec) :
    Except ErrorCode Str :=
  match kp.publicKey with
  | none => .error .INVALID_KEYPAIR_CONTENT
  | some pk =>
    match keyToMaterial env pk FLAG_PUBLIC kp.curve with
    | .error e => .error e
    | .ok material => materialToMultibase material FLAG_PUBLIC kp.curve

/-- `ECKeypair.verifyFingerprint` (`keypair.ts` lines 98-100):
`fingerprint === await this.generateFingerprint()`. -/
def verifyFingerprint (env : CryptoEnv) (kp : ECKeypairMRec) (fingerprint : Str) :
    Except ErrorCode Bool :=
  match generateFingerprint env kp with
  | .error e => .error e
  | .ok s => .ok (fingerprint == s)

/-! ## Proof and credential records -/

/-- A Data Integrity proof / proof-options object. The `@context` type is a
parameter `γ`. -/
structure ProofRec (γ : Type) where
  type : Str
  cryptosuite : Str
  created : Option Str
  verificationMethod : Str
  proofPurpose : Str
  context : Option γ
  proofValue : Option Str
deriving DecidableEq

/-- A JSON-LD credential: an opaque body `α`, an `@context`, and an optional
`proof` member. -/
structure Credential (α γ : Type) where
  body : α
  context : Option γ
  proof : Option (ProofRec γ)
deriving DecidableEq

/-- The result shape of `verifyProof`. -/
structure VerificationResult (α γ : Type) where
  verified : Bool
  verifiedDocument : Option (Credential α γ)
deriving DecidableEq

/-- RDFC and JCS canonicalization of documents and proof configurations
(external, spec §6). -/
structure CanonEnv (α γ : Type) where
  rdfcDoc : Credential α γ → Str
  rdfcProof : ProofRec γ → Str
  jcsDoc : Credential α γ → Str
  jcsProof : ProofRec γ → Str

/-! ## RDFC / JCS suite core (`src/suite/core.ts`) -/

/-- Truthiness of a `Date.parse` result: `NaN` and `0` are falsy. -/
def truthyParse (r : Option Int) : Bool :=
  match r with
  | none => false
  | some t => decide (t ≠ 0)

/-- The `created` guard shared by `configRdfc` / `configJcs` / `configSd`
(`suite/core.ts` lines 120, 208, 525): `proofConfig.created &&
!Date.parse(proofConfig.created)` — `true` means the error is raised. -/
def createdCheckFails (parseDate : Str → Option Int) (created : Option Str) : Bool :=
  match created with
  | none => false
  | some s => if s = [] then false else !(truthyParse (parseDate s))

/-- `transformRdfc` (`suite/core.ts` lines 42-77). -/
def transformRdfc {α γ : Type} (cenv : CanonEnv α γ) (unsecuredDocument : Credential α γ)
    (proof : ProofRec γ) : Except ErrorCode Str :=
  if proof.type ≠ TYPE_DIP ∨ proof.cryptosuite ≠ SUITE_RDFC then
    .error .PROOF_TRANSFORMATION_ERROR
  else .ok (cenv.rdfcDoc unsecuredDocument)

/-- `configRdfc` (`suite/core.ts` lines 90-137): validate type, cryptosuite
and `created`, set the proof `@context` from the document, canonicalize. -/
def configRdfc {α γ : Type} (env : CryptoEnv) (cenv : CanonEnv α γ)
    (unsecuredDocument : Credential α γ) (proof : ProofRec γ) :
    Except ErrorCode Str :=
  if proof.type ≠ TYPE_DIP ∨ proof.cryptosuite ≠ SUITE_RDFC then
    .error .PROOF_GENERATION_ERROR
  else if createdCheckFails env.parseDate proof.created then
    .error .PROOF_GENERATION_ERROR
  else .ok (cenv.rdfcProof { proof with context := unsecuredDocument.context })

/-- `transformJcs` (`suite/core.ts` lines 151-174). -/
def transformJcs {α γ : Type} (cenv : CanonEnv α γ) (unsecuredDocument : Credential α γ)
    (proof : ProofRec γ) : Except ErrorCode Str :=
  if proof.type ≠ TYPE_DIP ∨ proof.cryptosuite ≠ SUITE_JCS then
    .error .PROOF_TRANSFORMATION_ERROR
  else .ok (cenv.jcsDoc unsecuredDocument)

/-- `configJcs` (`suite/core.ts` lines 186-218): like `configRdfc` but JCS and
without touching `@context`. -/
def configJcs {α γ : Type} (env : CryptoEnv) (cenv : CanonEnv α γ)
    (proof : ProofRec γ) : Except ErrorCode Str :=
  if proof.type ≠ TYPE_DIP ∨ proof.cryptosuite ≠ SUITE_JCS then
    .error .PROOF_GENERATION_ERROR
  else if createdCheckFails env.parseDate proof.created then
    .error .PROOF_GENERATION_ERROR
  else .ok (cenv.jcsProof proof)

/-- `configSd` (`suite/core.ts` lines 496-542). -/
def configSd {α γ : Type} (env : CryptoEnv) (cenv : CanonEnv α γ)
    (unsecuredDocument : Credential α γ) (proof : ProofRec γ) :
    Except ErrorCode Str :=
  if proof.type ≠ TYPE_DIP ∨ proof.cryptosuite ≠ SUITE_SD then
    .error .PROOF_GENERATION_ERROR
  else if createdCheckFails env.parseDate proof.created then
    .error .PROOF_GENERATION_ERROR
  else .ok (cenv.rdfcProof { proof with context := unsecuredDocument.context })

/-- `constructHasher` (`utils/crypto.ts` lines 11-26). -/
def constructHasher (env : CryptoEnv) (curve : Str) :
    Except ErrorCode (List Nat → List Nat) :=
  if curve = P256 ∨ curve = P384 then
    match curveToDigestAlgorithm curve with
    | .ok alg => .ok (fun data => env.digest alg data)
    | .error e => .error e
  else .error .ENCODING_ERROR

/-- `hashRdfcJcs` (`suite/core.ts` lines 237-260): digest of the canonical
proof configuration followed by the digest of the transformed document. -/
def hashRdfcJcs (env : CryptoEnv) (transformedDocument canonicalProofConfig : Str)
    (curve : Str) : Except ErrorCode (List Nat) :=
  match constructHasher env curve with
  | .error e => .error e
  | .ok hasher =>
    .ok (hasher (utf8Encode canonicalProofConfig) ++
      hasher (utf8Encode transformedDocument))

/-- `serializeRdfcJcs` (`suite/core.ts` lines 273-323): resolve and import the
verification method, require a private key, select the hash by curve, sign. -/
def serializeRdfcJcs {γ : Type} (env : CryptoEnv) (menv : MethodEnv)
    (hashData : List Nat) (curve : Str) (proof : ProofRec γ) :
    Except ErrorCode (List Nat) :=
  match menv.resolveImport proof.verificationMethod curve with
  | .error e => .error e
  | .ok keypair =>
    match keypair.privateKey with
    | none => .error .INVALID_VERIFICATION_METHOD
    | some sk =>
      if curve = P256 then .ok (env.signK SHA256 sk hashData)
      else if curve = P384 then .ok (env.signK SHA384 sk hashData)
      else .error .PROOF_GENERATION_ERROR

/-- `verifyRdfcJcs` (`suite/core.ts` lines 337-389). -/
def verifyRdfcJcs {γ : Type} (env : CryptoEnv) (menv : MethodEnv)
    (hashData proofBytes : List Nat) (curve : Str) (proof : ProofRec γ) :
    Except ErrorCode Bool :=
  match menv.resolveImport proof.verificationMethod curve with
  | .error e => .error e
  | .ok keypair =>
    match keypair.publicKey with
    | none => .error .INVALID_VERIFICATION_METHOD
    | some pk =>
      if curve = P256 then .ok (env.verifyK SHA256 pk proofBytes hashData)
      else if curve = P384 then .ok (env.verifyK SHA384 pk proofBytes hashData)
      else .error .PROOF_GENERATION_ERROR

/-! ## The ecdsa-rdfc-2019 façade (`src/suite/rdfc.ts`) -/

/-- `EcdsaRdfc2019.createProof` (`rdfc.ts` lines 41-72). -/
def EcdsaRdfc2019_createProof {α γ : Type} (env : CryptoEnv) (cenv : CanonEnv α γ)
    (menv : MethodEnv) (unsecuredDocument : Credential α γ) (curve : Str)
    (proofOptions : ProofRec γ) : Except ErrorCode (ProofRec γ) :=
  match configRdfc env cenv unsecuredDocument proofOptions with
  | .error e => .error e
  | .ok canonicalProofConfig =>
    match transformRdfc cenv unsecuredDocument proofOptions with
    | .error e => .error e
    | .ok canonicalDocument =>
      match hashRdfcJcs env canonicalDocument canonicalProofConfig curve with
      | .error e => .error e
      | .ok hashData =>
        match serializeRdfcJcs env menv hashData curve proofOptions with
        | .error e => .error e
        | .ok proofBytes =>
          .ok { proofOptions with proofValue := some (base58btcEncode proofBytes) }

/-- `EcdsaRdfc2019.verifyProof` (`rdfc.ts` lines 84-127): strip `proof`, strip
`proofValue`, decode the signature, rebuild the canonical forms, hash, verify,
and return the document only when verified. -/
def EcdsaRdfc2019_verifyProof {α γ : Type} (env : CryptoEnv) (cenv : CanonEnv α γ)
    (menv : MethodEnv) (securedDocument : Credential α γ) (curve : Str) :
    Except ErrorCode (VerificationResult α γ) :=
  match securedDocument.proof with
  | none => .error .PROOF_VERIFICATION_ERROR
  | some pr =>
    let unsecuredCredential : Credential α γ := { securedDocument with proof := none }
    let proofOptions : ProofRec γ := { pr with proofValue := none }
    match pr.proofValue with
    | none => .error .PROOF_VERIFICATION_ERROR
    | some pv =>
      match base58btcDecode pv with
      | .error e => .error e
      | .ok proofBytes =>
        match transformRdfc cenv unsecuredCredential proofOptions with
        | .error e => .error e
        | .ok canonicalDocument =>
          match configRdfc env cenv unsecuredCredential proofOptions with
          | .error e => .error e
          | .ok canonicalProofConfig =>
            match hashRdfcJcs env canonicalDocument canonicalProofConfig curve with
            | .error e => .error e
            | .ok hashData =>
              match verifyRdfcJcs env menv hashData proofBytes curve proofOptions with
              | .error e => .error e
              | .ok verified =>
                .ok ⟨verified, if verified then some unsecuredCredential else none⟩

/-! ## Selective-disclosure suite core

Two drafts of `suite/core.ts` ship in the repository.  The draft in
`unnamed/part_002` selects digests through `curveToDigestAlgorithm` and pins
the proof-scoped operations to P-256; the draft in the file named
`src/src/suite/core.ts` selects hash names with inline `if` chains, and its
`verifySd` hash-name selection is mis-structured (see
`verifySdCoreTs_hashName`). -/

/-- `serializeSignData` (`selective/prepare.ts` lines 35-45):
`proofHash ‖ publicKey ‖ mandatoryHash`. -/
def serializeSignData (proofHash publicKey mandatoryHash : List Nat) : List Nat :=
  proofHash ++ publicKey ++ mandatoryHash

/-- The hash-data record consumed by `serializeSd` (the `HashData` type of
`suite/core.ts`), with the maps' values in iteration order. -/
structure HashDataSd where
  proofHash : List Nat
  mandatoryHash : List Nat
  hmacKey : List Nat
  mandatoryPointers : List Str
  nonMandatory : List Str
deriving DecidableEq

/-- `serializeSd` (`unnamed/part_002` lines 571-652): per-statement signatures
and the proof-scoped key pair always use `localCurve = Curve.P256`; the issuer
signature uses `options.curve`.  The proof-scoped keypair generated by
`proofScopedKeyPair.initialize()` is `env.pskSk`/`env.pskPk`. -/
def serializeSd {γ : Type} (env : CryptoEnv) (menv : MethodEnv)
    (pskSk pskPk : Nat) (hashData : HashDataSd) (curve : Str)
    (proof : ProofRec γ) : Except ErrorCode Str :=
  match curveToDigestAlgorithm P256 with
  | .error e => .error e
  | .ok localAlgorithm =>
    let signatures := hashData.nonMandatory.map
      (fun nQuad => env.signK localAlgorithm pskSk (utf8Encode nQuad))
    match keyToMaterial env pskPk FLAG_PUBLIC P256 with
    | .error e => .error e
    | .ok publicKeyMaterial =>
      match materialToMultibase publicKeyMaterial FLAG_PUBLIC P256 with
      | .error e => .error e
      | .ok publicKeyMultibase =>
        match base58btcDecode publicKeyMultibase with
        | .error e => .error e
        | .ok publicKey =>
          let toSign := serializeSignData hashData.proofHash publicKey
            hashData.mandatoryHash
          match menv.resolveImport proof.verificationMethod curve with
          | .error e => .error e
          | .ok keypair =>
            match keypair.privateKey with
            | none => .error .INVALID_VERIFICATION_METHOD
            | some sk =>
              match curveToDigestAlgorithm curve with
              | .error e => .error e
              | .ok algorithm =>
                serializeBaseProofValue
                  ⟨env.signK algorithm sk toSign, publicKey, hashData.hmacKey,
                    signatures, hashData.mandatoryPointers⟩

/-- The verify-data record produced by `createVerifyData`
(`selective/prepare.ts` lines 217-275). -/
structure VerifyDataSd where
  baseSignature : List Nat
  proofHash : List Nat
  publicKey : List Nat
  signatures : List (List Nat)
  nonMandatory : List Str
  mandatoryHash : List Nat
deriving DecidableEq

/-- `verifySd` (`unnamed/part_002` lines 710-808): signature-count guard, base
signature under `options.curve`, per-statement signatures under the
proof-scoped P-256 public key reconstructed from `publicKey`.  The
`createVerifyData` call is modelled by its result `cvd`. -/
def verifySd {γ : Type} (env : CryptoEnv) (menv : MethodEnv)
    (cvd : Except ErrorCode VerifyDataSd) (proof : ProofRec γ) (curve : Str) :
    Except ErrorCode Bool :=
  match cvd with
  | .error e => .error e
  | .ok vd =>
    if vd.signatures.length ≠ vd.nonMandatory.length then
      .error .PROOF_VERIFICATION_ERROR
    else
      match menv.resolveImport proof.verificationMethod curve with
      | .error e => .error e
      | .ok keypair =>
        match keypair.publicKey with
        | none => .error .INVALID_VERIFICATION_METHOD
        | some pk =>
          match curveToDigestAlgorithm curve with
          | .error e => .error e
          | .ok algorithm =>
            let toVerify := serializeSignData vd.proofHash vd.publicKey
              vd.mandatoryHash
            let baseCheck := env.verifyK algorithm pk vd.baseSignature toVerify
            match curveToDigestAlgorithm P256 with
            | .error e => .error e
            | .ok localAlgorithm =>
              let publicKeyMultibase := base58btcEncode vd.publicKey
              match multibaseToMaterial publicKeyMultibase FLAG_PUBLIC P256 with
              | .error e => .error e
              | .ok publicKeyMaterial =>
                match materialToPublicKey env publicKeyMaterial P256 with
                | .error e => .error e
                | .ok publicCryptoKey =>
                  let statementChecks := (vd.signatures.zip vd.nonMandatory).map
                    (fun p => env.verifyK localAlgorithm publicCryptoKey p.1
                      (utf8Encode p.2))
                  .ok (baseCheck && statementChecks.all (fun b => b))

/-- The hash-name selection of `verifySd` in the draft named
`src/src/suite/core.ts` (lines 816-828).  The source reads

  `if (curve === P256) { hashName = "SHA-256" }`
  `if (curve === P384) { hashName = "SHA-384" } else { throw … }`

so the first assignment is dead: whenever the curve is not P-384 — in
particular for P-256 — the second statement's `else` raises
`PROOF_GENERATION_ERROR`. -/
def verifySdCoreTs_hashName (curve : Str) : Except ErrorCode Str :=
  let _deadAssignment : Option Str := if curve = P256 then some SHA256 else none
  if curve = P384 then .ok SHA384
  else .error .PROOF_GENERATION_ERROR

/-- `verifySd` of the draft named `src/src/suite/core.ts` (lines 762-859): the
same verification flow, but with the broken hash-name selection above, and
with `options.curve` (not P-256) used for the proof-scoped key material. -/
def verifySdCoreTs {γ : Type} (env : CryptoEnv) (menv : MethodEnv)
    (toVerify : List Nat) (nonMandatory : List Str) (baseSignature : List Nat)
    (signatures : List (List Nat)) (publicKey : List Nat) (curve : Str)
    (proof : ProofRec γ) : Except ErrorCode Bool :=
  if signatures.length ≠ nonMandatory.length then .error .PROOF_VERIFICATION_ERROR
  else
    match menv.resolveImport proof.verificationMethod curve with
    | .error e => .error e
    | .ok keypair =>
      match keypair.publicKey with
      | none => .error .INVALID_VERIFICATION_METHOD
      | some pk =>
        match verifySdCoreTs_hashName curve with
        | .error e => .error e
        | .ok hashName =>
          let baseCheck := env.verifyK hashName pk baseSignature toVerify
          let publicKeyMultibase := base58btcEncode publicKey
          match multibaseToMaterial publicKeyMultibase FLAG_PUBLIC curve with
          | .error e => .error e
          | .ok publicKeyMaterial =>
            match materialToPublicKey env publicKeyMaterial curve with
            | .error e => .error e
            | .ok publicCryptoKey =>
              let statementChecks := (signatures.zip nonMandatory).map
                (fun p => env.verifyK hashName publicCryptoKey p.1
                  (utf8Encode p.2))
              .ok (baseCheck && statementChecks.all (fun b => b))

/-! ## Helper lemmas for the serialization round trips -/

theorem take_append_self {α : Type _} (l r : List α) : (l ++ r).take l.length = l := by
  induction l with
  | nil => simp
  | cons x xs ih => simp [ih]

theorem drop_append_self {α : Type _} (l r : List α) : (l ++ r).drop l.length = r := by
  induction l with
  | nil => simp
  | cons x xs ih => simp [ih]

theorem take_append_of_length {α : Type _} (l r : List α) (k : Nat)
    (h : l.length = k) : (l ++ r).take k = l := by
  subst h; exact take_append_self l r

theorem drop_append_of_length {α : Type _} (l r : List α) (k : Nat)
    (h : l.length = k) : (l ++ r).drop k = r := by
  subst h; exact drop_append_self l r

theorem toBaseLE_length_le (b : Nat) : ∀ fuel n, (toBaseLE b fuel n).length ≤ fuel := by
  intro fuel
  induction fuel with
  | zero => intro n; simp [toBaseLE]
  | succ f ih =>
    intro n
    rw [toBaseLE]
    by_cases h0 : n = 0
    · simp [h0]
    · rw [if_neg h0]
      simp only [List.length_cons]
      have := ih (n / b)
      omega

theorem beBytes_length (k n : Nat) : (beBytes k n).length = k := by
  rw [beBytes]
  have := toBaseLE_length_le 256 k n
  simp only [List.length_append, List.length_replicate, List.length_reverse]
  omega

/-- Reading the fixed-width bytes back gives the value. -/
theorem ofBaseLE_beBytes (k n : Nat) (hn : n < 256 ^ k) :
    ofBaseLE 256 (beBytes k n).reverse = n := by
  rw [beBytes, List.reverse_append, List.reverse_reverse, List.reverse_replicate,
    ofBaseLE_append_replicate_zero, ofBaseLE_toBaseLE 256 (by omega) k n hn]

theorem parseHead_cborHead (major n : Nat) (_hm : major < 8)
    (hn : n < 18446744073709551616) (rest : List Nat) :
    parseHead major (cborHead major n ++ rest) = some (n, rest) := by
  rw [cborHead]
  split_ifs with h1 h2 h3 h4
  · rw [List.cons_append, List.nil_append, parseHead]
    rw [if_neg (show ¬((major * 32 + n) / 32 ≠ major) by omega)]
    rw [if_pos (show (major * 32 + n) % 32 < 24 by omega)]
    have : (major * 32 + n) % 32 = n := by omega
    rw [this]
  · rw [List.cons_append, parseHead]
    rw [if_neg (show ¬((major * 32 + 24) / 32 ≠ major) by omega)]
    rw [if_neg (show ¬((major * 32 + 24) % 32 < 24) by omega)]
    rw [if_pos (show (major * 32 + 24) % 32 = 24 by omega)]
    rw [if_pos (by simp [beBytes_length])]
    rw [take_append_of_length _ _ 1 (beBytes_length 1 n),
      drop_append_of_length _ _ 1 (beBytes_length 1 n),
      ofBaseLE_beBytes 1 n (by omega)]
  · rw [List.cons_append, parseHead]
    rw [if_neg (show ¬((major * 32 + 25) / 32 ≠ major) by omega)]
    rw [if_neg (show ¬((major * 32 + 25) % 32 < 24) by omega)]
    rw [if_neg (show ¬((major * 32 + 25) % 32 = 24) by omega)]
    rw [if_pos (show (major * 32 + 25) % 32 = 25 by omega)]
    rw [if_pos (by simp [beBytes_length])]
    rw [take_append_of_length _ _ 2 (beBytes_length 2 n),
      drop_append_of_length _ _ 2 (beBytes_length 2 n),
      ofBaseLE_beBytes 2 n (by omega)]
  · rw [List.cons_append, parseHead]
    rw [if_neg (show ¬((major * 32 + 26) / 32 ≠ major) by omega)]
    rw [if_neg (show ¬((major * 32 + 26) % 32 < 24) by omega)]
    rw [if_neg (show ¬((major * 32 + 26) % 32 = 24) by omega)]
    rw [if_neg (show ¬((major * 32 + 26) % 32 = 25) by omega)]
    rw [if_pos (show (major * 32 + 26) % 32 = 26 by omega)]
    rw [if_pos (by simp [beBytes_length])]
    rw [take_append_of_length _ _ 4 (beBytes_length 4 n),
      drop_append_of_length _ _ 4 (beBytes_length 4 n),
      ofBaseLE_beBytes 4 n (by omega)]
  · rw [List.cons_append, parseHead]
    rw [if_neg (show ¬((major * 32 + 27) / 32 ≠ major) by omega)]
    rw [if_neg (show ¬((major * 32 + 27) % 32 < 24) by omega)]
    rw [if_neg (show ¬((major * 32 + 27) % 32 = 24) by omega)]
    rw [if_neg (show ¬((major * 32 + 27) % 32 = 25) by omega)]
    rw [if_neg (show ¬((major * 32 + 27) % 32 = 26) by omega)]
    rw [if_pos (show (major * 32 + 27) % 32 = 27 by omega)]
    rw [if_pos (by simp [beBytes_length])]
    rw [take_append_of_length _ _ 8 (beBytes_length 8 n),
      drop_append_of_length _ _ 8 (beBytes_length 8 n),
      ofBaseLE_beBytes 8 n (by omega)]

theorem parseBytesItem_cborBytesItem (bs : List Nat)
    (hlen : bs.length < 18446744073709551616) (rest : List Nat) :
    parseBytesItem (cborBytesItem bs ++ rest) = some (bs, rest) := by
  rw [cborBytesItem, parseBytesItem, List.append_assoc,
    parseHead_cborHead 2 bs.length (by omega) hlen]
  dsimp only
  rw [if_pos (by simp), take_append_self, drop_append_self]

theorem parseTextItem_cborTextItem (cs : Str) (h : ∀ c ∈ cs, c < 1114112)
    (hlen : (utf8Encode cs).length < 18446744073709551616) (rest : List Nat) :
    parseTextItem (cborTextItem cs ++ rest) = some (cs, rest) := by
  rw [cborTextItem, parseTextItem, List.append_assoc,
    parseHead_cborHead 3 (utf8Encode cs).length (by omega) hlen]
  dsimp only
  rw [if_pos (by simp), take_append_self, drop_append_self,
    utf8Decode_utf8Encode cs h]

theorem parseUIntItem_cborUIntItem (n : Nat) (hn : n < 18446744073709551616)
    (rest : List Nat) :
    parseUIntItem (cborUIntItem n ++ rest) = some (n, rest) := by
  rw [cborUIntItem, parseUIntItem, parseHead_cborHead 0 n (by omega) hn]

theorem parseListOf_flatten {α : Type} (p : List Nat → Option (α × List Nat))
    (enc : α → List Nat) (xs : List α)
    (hstep : ∀ x ∈ xs, ∀ r, p (enc x ++ r) = some (x, r)) (rest : List Nat) :
    parseListOf p xs.length ((xs.map enc).flatten ++ rest) = some (xs, rest) := by
  induction xs with
  | nil => simp [parseListOf]
  | cons x xs ih =>
    rw [List.map_cons, List.flatten_cons, List.length_cons, parseListOf,
      List.append_assoc, hstep x (List.mem_cons_self x xs)]
    dsimp only
    rw [ih (fun y hy r => hstep y (List.mem_cons_of_mem _ hy) r)]

theorem parsePairItem_enc (k : Nat) (v : List Nat) (hk : k < 18446744073709551616)
    (hv : v.length < 18446744073709551616) (rest : List Nat) :
    parsePairItem ((cborUIntItem k ++ cborBytesItem v) ++ rest) = some ((k, v), rest) := by
  rw [parsePairItem, List.append_assoc, parseUIntItem_cborUIntItem k hk]
  dsimp only
  rw [parseBytesItem_cborBytesItem v hv]

theorem takeWhile_eq_self {α : Type _} (p : α → Bool) :
    ∀ l : List α, (∀ c ∈ l, p c) → l.takeWhile p = l := by
  intro l
  induction l with
  | nil => intro _; rfl
  | cons x xs ih =>
    intro h
    rw [List.takeWhile_cons, if_pos (h x (List.mem_cons_self x xs))]
    rw [ih (fun c hc => h c (List.mem_cons_of_mem _ hc))]

/-- Parsing back the decimal rendering of a natural number. -/
theorem parseIntDec_natToDecStr (n : Nat) : parseIntDec (natToDecStr n) = some n := by
  rw [natToDecStr]
  by_cases h0 : n = 0
  · subst h0
    decide
  · rw [if_neg h0]
    have hlt : n < 10 ^ (n + 1) := by
      calc n < 10 ^ n := Nat.lt_pow_self (by omega) n
      _ ≤ 10 ^ (n + 1) := Nat.pow_le_pow_right (by omega) (by omega)
    have hdigits := toBaseLE_digits_lt 10 (by omega) (n + 1) n
    rw [parseIntDec]
    have hall : ∀ c ∈ (toBaseLE 10 (n + 1) n).reverse.map (fun d => d + 48),
        (48 ≤ c && c ≤ 57) = true := by
      intro c hc
      rw [List.mem_map] at hc
      obtain ⟨d, hd, rfl⟩ := hc
      have := hdigits d (List.mem_reverse.mp hd)
      simp only [Bool.and_eq_true, decide_eq_true_eq]
      omega
    rw [takeWhile_eq_self _ _ hall]
    have hne : toBaseLE 10 (n + 1) n ≠ [] := toBaseLE_ne_nil 10 (n + 1) n h0 hlt
    rw [if_neg (by
      intro hcon
      apply hne
      have := congrArg List.length hcon
      simp only [List.length_map, List.length_reverse, List.length_nil] at this
      exact List.length_eq_zero.mp this)]
    have hmap : ((toBaseLE 10 (n + 1) n).reverse.map (fun d => d + 48)).map
        (fun c => c - 48) = (toBaseLE 10 (n + 1) n).reverse := by
      rw [List.map_map]
      have hfun : ((fun c => c - 48) ∘ fun d : Nat => d + 48) = fun d : Nat => d := by
        funext d
        simp
      rw [hfun]
      simp
    rw [hmap, List.reverse_reverse, ofBaseLE_toBaseLE 10 (by omega) (n + 1) n hlt]

/-- `compressLabelMap` undoes `decompressLabelMap` on any compressed map whose
values are byte strings. -/
theorem compressLabelMap_decompressLabelMap (M : List (Nat × List Nat))
    (hM : ∀ kv ∈ M, allBytes kv.2) :
    compressLabelMap (decompressLabelMap M) = .ok M := by
  induction M with
  | nil => rfl
  | cons kv M ih =>
    obtain ⟨k, v⟩ := kv
    rw [decompressLabelMap, List.map_cons, compressLabelMap]
    rw [if_pos (take_append_of_length _ _ _ rfl)]
    rw [base64urlnopadDecode_encode v (hM (k, v) (List.mem_cons_self _ _))]
    rw [drop_append_of_length _ _ _ rfl, parseIntDec_natToDecStr k]
    have ih' := ih (fun kv hkv => hM kv (List.mem_cons_of_mem _ hkv))
    rw [decompressLabelMap] at ih'
    rw [ih']

theorem zip_self_all_eq {α : Type _} [BEq α] [LawfulBEq α] (l : List α) :
    ((l.zip l).all (fun p => p.1 == p.2)) = true := by
  induction l with
  | nil => rfl
  | cons x xs ih => simp [List.zip_cons_cons, ih]

/-! ## Byte-ness of the CBOR encodings -/

theorem allBytes_append (a b : List Nat) (ha : allBytes a) (hb : allBytes b) :
    allBytes (a ++ b) := by
  intro x hx
  rcases List.mem_append.mp hx with h | h
  · exact ha x h
  · exact hb x h

theorem allBytes_beBytes (k n : Nat) : allBytes (beBytes k n) := by
  intro x hx
  rw [beBytes] at hx
  rcases List.mem_append.mp hx with h | h
  · rw [List.mem_replicate] at h
    omega
  · exact toBaseLE_digits_lt 256 (by omega) k n x (List.mem_reverse.mp h)

theorem allBytes_cborHead (major n : Nat) (hm : major < 8) :
    allBytes (cborHead major n) := by
  rw [cborHead]
  split_ifs with h1 h2 h3 h4 <;> intro x hx
  · rw [List.mem_singleton] at hx; omega
  all_goals
    rcases List.mem_cons.mp hx with h | h
  · omega
  · exact allBytes_beBytes 1 n x h
  · omega
  · exact allBytes_beBytes 2 n x h
  · omega
  · exact allBytes_beBytes 4 n x h
  · omega
  · exact allBytes_beBytes 8 n x h

theorem allBytes_cborBytesItem (bs : List Nat) (h : allBytes bs) :
    allBytes (cborBytesItem bs) :=
  allBytes_append _ _ (allBytes_cborHead 2 bs.length (by omega)) h

theorem allBytes_cborTextItem (cs : Str) (h : ∀ c ∈ cs, c < 1114112) :
    allBytes (cborTextItem cs) :=
  allBytes_append _ _ (allBytes_cborHead 3 (utf8Encode cs).length (by omega))
    (utf8Encode_bytes cs h)

theorem allBytes_cborUIntItem (n : Nat) : allBytes (cborUIntItem n) :=
  allBytes_cborHead 0 n (by omega)

theorem allBytes_flatten (ls : List (List Nat)) (h : ∀ l ∈ ls, allBytes l) :
    allBytes ls.flatten := by
  intro x hx
  rw [List.mem_flatten] at hx
  obtain ⟨l, hl, hxl⟩ := hx
  exact h l hl x hxl

/-! ## Well-formedness of proof values

These are the shapes the spec prescribes for base and derived proof values
(§3): byte strings of the documented lengths, Unicode strings for the
pointers, and — since CBOR cannot carry lengths of 2^64 or more — all counts
below 2^64. -/

def SIXTY_FOUR_BIT : Nat := 18446744073709551616

/-- Well-formed base proof value (spec §3 and the `assertBaseProofValue`
checks). -/
def WellFormedBase (v : BaseProofValue) : Prop :=
  (v.baseSignature.length = 64 ∨ v.baseSignature.length = 96) ∧
  allBytes v.baseSignature ∧
  v.publicKey.length = 35 ∧ allBytes v.publicKey ∧
  v.hmacKey.length = 32 ∧ allBytes v.hmacKey ∧
  (∀ s ∈ v.signatures, s.length = 64 ∧ allBytes s) ∧
  v.signatures.length < SIXTY_FOUR_BIT ∧
  (∀ p ∈ v.mandatoryPointers, scalarStr p ∧
    (utf8Encode p).length < SIXTY_FOUR_BIT) ∧
  v.mandatoryPointers.length < SIXTY_FOUR_BIT

instance (v : BaseProofValue) : Decidable (WellFormedBase v) := by
  unfold WellFormedBase; infer_instance

/-- Well-formed derived proof value: the spec shapes, with the label map given
as the decompression of a compressed map `M` of byte-string values. -/
def WellFormedDerived (w : DerivedProofValue) (M : List (Nat × List Nat)) : Prop :=
  w.labelMap = decompressLabelMap M ∧
  (∀ kv ∈ M, allBytes kv.2 ∧ kv.2.length < SIXTY_FOUR_BIT ∧ kv.1 < SIXTY_FOUR_BIT) ∧
  M.length < SIXTY_FOUR_BIT ∧
  (w.baseSignature.length = 64 ∨ w.baseSignature.length = 96) ∧
  allBytes w.baseSignature ∧
  w.publicKey.length = 35 ∧ allBytes w.publicKey ∧
  (∀ s ∈ w.signatures, s.length = 64 ∧ allBytes s) ∧
  w.signatures.length < SIXTY_FOUR_BIT ∧
  (∀ i ∈ w.mandatoryIndexes, i < SIXTY_FOUR_BIT) ∧
  w.mandatoryIndexes.length < SIXTY_FOUR_BIT

instance (w : DerivedProofValue) (M : List (Nat × List Nat)) :
    Decidable (WellFormedDerived w M) := by
  unfold WellFormedDerived; infer_instance

theorem cborDecodeBase_cborEncodeBase (v : BaseProofValue) (h : WellFormedBase v) :
    cborDecodeBase (cborEncodeBase v) = some v := by
  obtain ⟨hsig, hsigb, hpk, hpkb, hhk, hhkb, hsigs, hnsig, hptrs, hnptr⟩ := h
  rw [cborEncodeBase, cborDecodeBase]
  simp only [List.append_assoc]
  rw [parseHead_cborHead 4 5 (by omega) (by rw [SIXTY_FOUR_BIT] at *; omega)]
  dsimp only
  rw [if_neg (by omega)]
  rw [parseBytesItem_cborBytesItem v.baseSignature (by rw [SIXTY_FOUR_BIT] at *; omega)]
  dsimp only
  rw [parseBytesItem_cborBytesItem v.publicKey (by rw [SIXTY_FOUR_BIT] at *; omega)]
  dsimp only
  rw [parseBytesItem_cborBytesItem v.hmacKey (by rw [SIXTY_FOUR_BIT] at *; omega)]
  dsimp only
  rw [parseHead_cborHead 4 v.signatures.length (by omega)
    (by rw [SIXTY_FOUR_BIT] at *; omega)]
  dsimp only
  rw [parseListOf_flatten parseBytesItem cborBytesItem v.signatures
    (fun s hs r => parseBytesItem_cborBytesItem s (by
      have := (hsigs s hs).1
      rw [SIXTY_FOUR_BIT] at *
      omega) r)]
  dsimp only
  rw [parseHead_cborHead 4 v.mandatoryPointers.length (by omega)
    (by rw [SIXTY_FOUR_BIT] at *; omega)]
  dsimp only
  have hlast : (v.mandatoryPointers.map cborTextItem).flatten =
      (v.mandatoryPointers.map cborTextItem).flatten ++ [] := by simp
  rw [hlast, parseListOf_flatten parseTextItem cborTextItem v.mandatoryPointers
    (fun p hp r => parseTextItem_cborTextItem p
      (fun c hc => ((hptrs p hp).1 c hc).1)
      (by have := (hptrs p hp).2; rw [SIXTY_FOUR_BIT] at *; omega) r)]

theorem allBytes_cborEncodeBase (v : BaseProofValue) (h : WellFormedBase v) :
    allBytes (cborEncodeBase v) := by
  obtain ⟨hsig, hsigb, hpk, hpkb, hhk, hhkb, hsigs, hnsig, hptrs, hnptr⟩ := h
  rw [cborEncodeBase]
  simp only [List.append_assoc]
  refine allBytes_append _ _ (allBytes_cborHead 4 5 (by omega)) ?_
  refine allBytes_append _ _ (allBytes_cborBytesItem _ hsigb) ?_
  refine allBytes_append _ _ (allBytes_cborBytesItem _ hpkb) ?_
  refine allBytes_append _ _ (allBytes_cborBytesItem _ hhkb) ?_
  refine allBytes_append _ _ (allBytes_cborHead 4 _ (by omega)) ?_
  refine allBytes_append _ _ ?_ ?_
  · refine allBytes_flatten _ ?_
    intro l hl
    rw [List.mem_map] at hl
    obtain ⟨s, hs, rfl⟩ := hl
    exact allBytes_cborBytesItem s (hsigs s hs).2
  refine allBytes_append _ _ (allBytes_cborHead 4 _ (by omega)) ?_
  refine allBytes_flatten _ ?_
  intro l hl
  rw [List.mem_map] at hl
  obtain ⟨p, hp, rfl⟩ := hl
  exact allBytes_cborTextItem p (fun c hc => ((hptrs p hp).1 c hc).1)

/-- The base proof value round trip:
`parseBaseProofValue (serializeBaseProofValue v) = v`. -/
theorem parseBase_serializeBase (v : BaseProofValue) (h : WellFormedBase v) :
    (serializeBaseProofValue v).bind parseBaseProofValue = .ok v := by
  have hassert : assertBaseProofValue v = true := by
    obtain ⟨hsig, _, hpk, _, hhk, _, hsigs, _, _, _⟩ := h
    rw [assertBaseProofValue]
    simp only [Bool.and_eq_true, Bool.or_eq_true, beq_iff_eq, List.all_eq_true]
    refine ⟨⟨⟨by omega, hpk⟩, hhk⟩, ?_⟩
    intro s hs
    exact (hsigs s hs).1
  rw [serializeBaseProofValue, if_pos hassert]
  show parseBaseProofValue
    (base64urlnopadEncode (hexToBytes CBOR_BASE ++ cborEncodeBase v)) = .ok v
  rw [parseBaseProofValue]
  have hbytes : allBytes (hexToBytes CBOR_BASE ++ cborEncodeBase v) := by
    refine allBytes_append _ _ ?_ (allBytes_cborEncodeBase v h)
    decide
  rw [base64urlnopadDecode_encode _ hbytes]
  dsimp only
  rw [take_append_of_length _ _ _ (by decide), zip_self_all_eq,
    drop_append_of_length _ _ _ (by decide)]
  rw [if_pos rfl, cborDecodeBase_cborEncodeBase v h]
  dsimp only
  rw [if_pos hassert]

theorem cborDecodeDerived_cborEncodeDerived (bs pk : List Nat)
    (sigs : List (List Nat)) (M : List (Nat × List Nat)) (idx : List Nat)
    (hbs : bs.length < SIXTY_FOUR_BIT) (hpk : pk.length < SIXTY_FOUR_BIT)
    (hsigs : ∀ s ∈ sigs, s.length < SIXTY_FOUR_BIT)
    (hnsig : sigs.length < SIXTY_FOUR_BIT)
    (hM : ∀ kv ∈ M, kv.2.length < SIXTY_FOUR_BIT ∧ kv.1 < SIXTY_FOUR_BIT)
    (hnM : M.length < SIXTY_FOUR_BIT)
    (hidx : ∀ i ∈ idx, i < SIXTY_FOUR_BIT)
    (hnidx : idx.length < SIXTY_FOUR_BIT) :
    cborDecodeDerived (cborEncodeDerived bs pk sigs M idx) =
      some (bs, pk, sigs, M, idx) := by
  rw [cborEncodeDerived, cborDecodeDerived]
  simp only [List.append_assoc]
  rw [parseHead_cborHead 4 5 (by omega) (by rw [SIXTY_FOUR_BIT] at *; omega)]
  dsimp only
  rw [if_neg (by omega)]
  rw [parseBytesItem_cborBytesItem bs (by rw [SIXTY_FOUR_BIT] at *; omega)]
  dsimp only
  rw [parseBytesItem_cborBytesItem pk (by rw [SIXTY_FOUR_BIT] at *; omega)]
  dsimp only
  rw [parseHead_cborHead 4 sigs.length (by omega)
    (by rw [SIXTY_FOUR_BIT] at *; omega)]
  dsimp only
  rw [parseListOf_flatten parseBytesItem cborBytesItem sigs
    (fun s hs r => parseBytesItem_cborBytesItem s (by
      have := hsigs s hs
      rw [SIXTY_FOUR_BIT] at *
      omega) r)]
  dsimp only
  rw [parseHead_cborHead 5 M.length (by omega)
    (by rw [SIXTY_FOUR_BIT] at *; omega)]
  dsimp only
  rw [parseListOf_flatten parsePairItem
    (fun kv => cborUIntItem kv.1 ++ cborBytesItem kv.2) M
    (fun kv hkv r => parsePairItem_enc kv.1 kv.2
      (by have := (hM kv hkv).2; rw [SIXTY_FOUR_BIT] at *; omega)
      (by have := (hM kv hkv).1; rw [SIXTY_FOUR_BIT] at *; omega) r)]
  dsimp only
  rw [parseHead_cborHead 4 idx.length (by omega)
    (by rw [SIXTY_FOUR_BIT] at *; omega)]
  dsimp only
  have hlast : (idx.map cborUIntItem).flatten =
      (idx.map cborUIntItem).flatten ++ [] := by simp
  rw [hlast, parseListOf_flatten parseUIntItem cborUIntItem idx
    (fun i hi r => parseUIntItem_cborUIntItem i (by
      have := hidx i hi
      rw [SIXTY_FOUR_BIT] at *
      omega) r)]

theorem allBytes_cborEncodeDerived (bs pk : List Nat)
    (sigs : List (List Nat)) (M : List (Nat × List Nat)) (idx : List Nat)
    (hbs : allBytes bs) (hpk : allBytes pk)
    (hsigs : ∀ s ∈ sigs, allBytes s)
    (hM : ∀ kv ∈ M, allBytes kv.2) :
    allBytes (cborEncodeDerived bs pk sigs M idx) := by
  rw [cborEncodeDerived]
  simp only [List.append_assoc]
  refine allBytes_append _ _ (allBytes_cborHead 4 5 (by omega)) ?_
  refine allBytes_append _ _ (allBytes_cborBytesItem _ hbs) ?_
  refine allBytes_append _ _ (allBytes_cborBytesItem _ hpk) ?_
  refine allBytes_append _ _ (allBytes_cborHead 4 _ (by omega)) ?_
  refine allBytes_append _ _ ?_ ?_
  · refine allBytes_flatten _ ?_
    intro l hl
    rw [List.mem_map] at hl
    obtain ⟨s, hs, rfl⟩ := hl
    exact allBytes_cborBytesItem s (hsigs s hs)
  refine allBytes_append _ _ (allBytes_cborHead 5 _ (by omega)) ?_
  refine allBytes_append _ _ ?_ ?_
  · refine allBytes_flatten _ ?_
    intro l hl
    rw [List.mem_map] at hl
    obtain ⟨kv, hkv, rfl⟩ := hl
    exact allBytes_append _ _ (allBytes_cborUIntItem kv.1)
      (allBytes_cborBytesItem kv.2 (hM kv hkv))
  refine allBytes_append _ _ (allBytes_cborHead 4 _ (by omega)) ?_
  refine allBytes_flatten _ ?_
  intro l hl
  rw [List.mem_map] at hl
  obtain ⟨i, hi, rfl⟩ := hl
  exact allBytes_cborUIntItem i

/-- The derived proof value round trip:
`parseDerivedProofValue (serializeDerivedProofValue w) = w`. -/
theorem parseDerived_serializeDerived (w : DerivedProofValue)
    (M : List (Nat × List Nat)) (h : WellFormedDerived w M) :
    (serializeDerivedProofValue w).bind parseDerivedProofValue = .ok w := by
  obtain ⟨hlm, hMkv, hnM, hsig, hsigb, hpk, hpkb, hsigs, hnsig, hidx, hnidx⟩ := h
  have hassert : assertCompressedProofValue w.baseSignature w.publicKey = true := by
    rw [assertCompressedProofValue]
    simp only [Bool.and_eq_true, Bool.or_eq_true, beq_iff_eq]
    exact ⟨by omega, hpk⟩
  have hcomp : compressLabelMap w.labelMap = .ok M := by
    rw [hlm]
    exact compressLabelMap_decompressLabelMap M (fun kv hkv => (hMkv kv hkv).1)
  rw [serializeDerivedProofValue, hcomp]
  dsimp only
  rw [if_pos hassert]
  show parseDerivedProofValue
    (base64urlnopadEncode (hexToBytes CBOR_DERIVED ++
      cborEncodeDerived w.baseSignature w.publicKey w.signatures M
        w.mandatoryIndexes)) = .ok w
  rw [parseDerivedProofValue]
  have hbytes : allBytes (hexToBytes CBOR_DERIVED ++
      cborEncodeDerived w.baseSignature w.publicKey w.signatures M
        w.mandatoryIndexes) := by
    refine allBytes_append _ _ ?_ (allBytes_cborEncodeDerived _ _ _ _ _
      hsigb hpkb (fun s hs => (hsigs s hs).2) (fun kv hkv => (hMkv kv hkv).1))
    decide
  rw [base64urlnopadDecode_encode _ hbytes]
  dsimp only
  rw [take_append_of_length _ _ _ (by decide), zip_self_all_eq,
    drop_append_of_length _ _ _ (by decide)]
  rw [if_pos rfl, cborDecodeDerived_cborEncodeDerived w.baseSignature w.publicKey
    w.signatures M w.mandatoryIndexes
    (by rw [SIXTY_FOUR_BIT]; omega) (by rw [SIXTY_FOUR_BIT]; omega)
    (fun s hs => by have := (hsigs s hs).1; rw [SIXTY_FOUR_BIT]; omega) hnsig
    (fun kv hkv => ⟨(hMkv kv hkv).2.1, (hMkv kv hkv).2.2⟩) hnM hidx hnidx]
  dsimp only
  rw [if_pos hassert]
  obtain ⟨bs, pk, sigs, lm, mi⟩ := w
  dsimp only at hlm ⊢
  rw [hlm]

/-! ## Concrete instantiations of the external collaborators

Used by the witness theorems: a Web Crypto model whose digests have the
documented lengths, whose signatures are the byte string `[0]`, and whose
verifier accepts exactly that signature; a method environment resolving
every verification method to one P-256 keypair; trivial canonicalizers. -/

def wEnv : CryptoEnv :=
  { digest := fun a _ => if a = SHA256 then List.replicate 32 0
      else List.replicate 48 0,
    signK := fun _ _ _ => [0],
    verifyK := fun _ _ sig _ => sig == [0],
    parseDate := fun _ => some 0,
    exportKey := fun _ _ =>
      hexToBytes "3059301306072a8648ce3d020106082a8648ce3d03010703420004" ++
        List.replicate 64 0,
    keyCurve := fun _ => P256,
    importKey := fun _ => 0 }

def wKp : ECKeypairMRec := ⟨P256, none, none, some 0, some 0⟩

def wMenv : MethodEnv := ⟨fun _ _ => .ok wKp⟩

def wCanon : CanonEnv Unit Unit := ⟨fun _ => [], fun _ => [], fun _ => [], fun _ => []⟩

def wProofOptions : ProofRec Unit := ⟨TYPE_DIP, SUITE_RDFC, none, [], [], none, none⟩

def wProofEpoch : ProofRec Unit :=
  ⟨TYPE_DIP, SUITE_RDFC, some (strCodes "1970-01-01T00:00:00.000Z"), [], [],
    none, none⟩

def wProofEmpty : ProofRec Unit :=
  ⟨TYPE_DIP, SUITE_RDFC, some [], [], [], none, none⟩

def wDoc : Credential Unit Unit := ⟨(), none, none⟩

/-! ## The claims -/

/-- C10: every public entry point with an optional curve parameter defaults to
P-256 when the curve is omitted: the `ECKeypair` constructor sets
`curve = P-256`, `ECKeypair.import` without `options.curve` (or with a falsy
one) imports at P-256, and `createDisclosureData` / `createVerifyData` without
`options.curve` select the P-256 digest SHA-256. -/
theorem optional_curve_defaults_p256 :
    (ECKeypair_new none none none).curve = P256 ∧
    ECKeypair_import_curve none = P256 ∧
    ECKeypair_import_curve (some []) = P256 ∧
    createDisclosureData_curve none = P256 ∧
    createDisclosureData_algorithm none = .ok SHA256 ∧
    createVerifyData_curve none = P256 ∧
    createVerifyData_algorithm none = .ok SHA256 :=
  ⟨rfl, rfl, rfl, rfl, rfl, rfl, rfl⟩

/-- C3: `curveToDigestAlgorithm` maps P-256 to SHA-256 and P-384 to SHA-384 and
errors exactly on the other inputs — but the `verifySd` of the draft named
`src/src/suite/core.ts` mis-nests its hash-name `if` chain, so a verification
at curve P-256 (count check passed, method resolved, public key present)
raises `PROOF_GENERATION_ERROR` instead of selecting SHA-256: the code
contradicts the claim (and the repository's own P-256 SD tests). -/
theorem curve_digest_map_verifySd_p256_bug :
    (∀ c : Str,
      (curveToDigestAlgorithm c = .ok SHA256 ↔ c = P256) ∧
      (curveToDigestAlgorithm c = .ok SHA384 ↔ c = P384) ∧
      (curveToDigestAlgorithm c = .error .ENCODING_ERROR ↔ (c ≠ P256 ∧ c ≠ P384))) ∧
    verifySdCoreTs_hashName P256 = .error .PROOF_GENERATION_ERROR ∧
    (∀ (γ : Type) (env : CryptoEnv) (menv : MethodEnv) (toVerify : List Nat)
       (nonMandatory : List Str) (baseSignature : List Nat)
       (signatures : List (List Nat)) (publicKey : List Nat) (proof : ProofRec γ)
       (kp : ECKeypairMRec) (pk : Nat),
       signatures.length = nonMandatory.length →
       menv.resolveImport proof.verificationMethod P256 = .ok kp →
       kp.publicKey = some pk →
       verifySdCoreTs env menv toVerify nonMandatory baseSignature signatures
         publicKey P256 proof = .error .PROOF_GENERATION_ERROR) := by
  refine ⟨?_, rfl, ?_⟩
  · intro c
    rw [curveToDigestAlgorithm]
    by_cases h1 : c = P256
    · subst h1
      rw [if_pos rfl]
      refine ⟨⟨fun _ => rfl, fun _ => rfl⟩, ?_, ?_⟩
      · constructor
        · intro h
          exact absurd (Except.ok.inj h) (by decide)
        · intro h
          exact absurd h (by decide)
      · constructor
        · intro h
          exact Except.noConfusion h
        · intro h
          exact absurd rfl h.1
    · rw [if_neg h1]
      by_cases h2 : c = P384
      · subst h2
        rw [if_pos rfl]
        refine ⟨?_, ⟨fun _ => rfl, fun _ => rfl⟩, ?_⟩
        · constructor
          · intro h
            exact absurd (Except.ok.inj h) (by decide)
          · intro h
            exact absurd h.symm (by decide)
        · constructor
          · intro h
            exact Except.noConfusion h
          · intro h
            exact absurd rfl h.2
      · rw [if_neg h2]
        refine ⟨⟨fun h => Except.noConfusion h, fun h => absurd h h1⟩,
          ⟨fun h => Except.noConfusion h, fun h => absurd h h2⟩,
          fun _ => ⟨h1, h2⟩, fun _ => rfl⟩
  · intro γ env menv toVerify nonMandatory baseSignature signatures publicKey
      proof kp pk hlen hres hpk
    rw [verifySdCoreTs]
    rw [if_neg (show ¬signatures.length ≠ nonMandatory.length from fun h => h hlen)]
    rw [hres]
    dsimp only
    rw [hpk]
    dsimp only
    rfl

/-- C3 witness: at the concrete environments, the broken `verifySd` of
`src/src/suite/core.ts` raises `PROOF_GENERATION_ERROR` at curve P-256 even
though the counts agree and the method resolves to a keypair with a public
key. -/
theorem curve_digest_map_verifySd_p256_bug_witness :
    ([] : List (List Nat)).length = ([] : List Str).length ∧
    wMenv.resolveImport wProofOptions.verificationMethod P256 = .ok wKp ∧
    wKp.publicKey = some 0 ∧
    verifySdCoreTs wEnv wMenv [] [] [] [] [] P256 wProofOptions =
      .error .PROOF_GENERATION_ERROR :=
  ⟨rfl, rfl, rfl,
    curve_digest_map_verifySd_p256_bug.2.2 Unit wEnv wMenv [] [] [] [] []
      wProofOptions wKp 0 rfl rfl rfl⟩

/-- C6: the `created` guard of `configRdfc` / `configJcs` / `configSd` is
`proofConfig.created && !Date.parse(proofConfig.created)`, which deviates from
"raise iff `created` is present and not a valid datetime" in both directions:
a `created` that parses to epoch 0 (a valid datetime) raises
`PROOF_GENERATION_ERROR`, and a present-but-empty `created` (not a valid
datetime) is skipped and configuration succeeds. -/
theorem created_validation_bug (α γ : Type) (env : CryptoEnv)
    (cenv : CanonEnv α γ) (doc : Credential α γ) (proof : ProofRec γ) (s : Str)
    (htype : proof.type = TYPE_DIP) :
    (proof.cryptosuite = SUITE_RDFC → proof.created = some s → s ≠ [] →
      env.parseDate s = some 0 →
      configRdfc env cenv doc proof = .error .PROOF_GENERATION_ERROR) ∧
    (proof.cryptosuite = SUITE_RDFC → proof.created = some [] →
      configRdfc env cenv doc proof =
        .ok (cenv.rdfcProof { proof with context := doc.context })) ∧
    (proof.cryptosuite = SUITE_JCS → proof.created = some s → s ≠ [] →
      env.parseDate s = some 0 →
      configJcs env cenv proof = .error .PROOF_GENERATION_ERROR) ∧
    (proof.cryptosuite = SUITE_JCS → proof.created = some [] →
      configJcs env cenv proof = .ok (cenv.jcsProof proof)) ∧
    (proof.cryptosuite = SUITE_SD → proof.created = some s → s ≠ [] →
      env.parseDate s = some 0 →
      configSd env cenv doc proof = .error .PROOF_GENERATION_ERROR) ∧
    (proof.cryptosuite = SUITE_SD → proof.created = some [] →
      configSd env cenv doc proof =
        .ok (cenv.rdfcProof { proof with context := doc.context })) := by
  have hfail : proof.created = some s → s ≠ [] → env.parseDate s = some 0 →
      createdCheckFails env.parseDate proof.created = true := by
    intro hc hs hp
    rw [hc, createdCheckFails, if_neg hs, hp]
    rfl
  have hok : proof.created = some [] →
      createdCheckFails env.parseDate proof.created = false := by
    intro hc
    rw [hc, createdCheckFails, if_pos rfl]
  refine ⟨?_, ?_, ?_, ?_, ?_, ?_⟩
  · intro hsuite hc hs hp
    rw [configRdfc, if_neg (by rw [htype, hsuite]; simp), hfail hc hs hp]
    simp
  · intro hsuite hc
    rw [configRdfc, if_neg (by rw [htype, hsuite]; simp), hok hc]
    simp
  · intro hsuite hc hs hp
    rw [configJcs, if_neg (by rw [htype, hsuite]; simp), hfail hc hs hp]
    simp
  · intro hsuite hc
    rw [configJcs, if_neg (by rw [htype, hsuite]; simp), hok hc]
    simp
  · intro hsuite hc hs hp
    rw [configSd, if_neg (by rw [htype, hsuite]; simp), hfail hc hs hp]
    simp
  · intro hsuite hc
    rw [configSd, if_neg (by rw [htype, hsuite]; simp), hok hc]
    simp

/-- C6 witness: a `created` of `1970-01-01T00:00:00.000Z` (which `Date.parse`
maps to 0) makes `configRdfc` raise `PROOF_GENERATION_ERROR`, while a present
empty `created` configures successfully. -/
theorem created_validation_bug_witness :
    wProofEpoch.type = TYPE_DIP ∧
    wProofEpoch.cryptosuite = SUITE_RDFC ∧
    wProofEpoch.created = some (strCodes "1970-01-01T00:00:00.000Z") ∧
    wEnv.parseDate (strCodes "1970-01-01T00:00:00.000Z") = some 0 ∧
    configRdfc wEnv wCanon wDoc wProofEpoch = .error .PROOF_GENERATION_ERROR ∧
    configRdfc wEnv wCanon wDoc wProofEmpty =
      .ok (wCanon.rdfcProof { wProofEmpty with context := wDoc.context }) :=
  ⟨rfl, rfl, rfl, rfl,
    (created_validation_bug Unit Unit wEnv wCanon wDoc wProofEpoch
      (strCodes "1970-01-01T00:00:00.000Z") rfl).1 rfl rfl (by decide) rfl,
    (created_validation_bug Unit Unit wEnv wCanon wDoc wProofEmpty
      [] rfl).2.1 rfl rfl⟩

/-- C7: the hashing step of the RDFC and JCS suites returns the digest of the
canonical proof configuration followed by the digest of the transformed
document, and — when the digests have their documented lengths — the result is
64 bytes at P-256 and 96 bytes at P-384. -/
theorem hashRdfcJcs_concat_length (env : CryptoEnv) (t c : Str)
    (h256 : ∀ d, (env.digest SHA256 d).length = 32)
    (h384 : ∀ d, (env.digest SHA384 d).length = 48) :
    (hashRdfcJcs env t c P256 =
       .ok (env.digest SHA256 (utf8Encode c) ++ env.digest SHA256 (utf8Encode t)) ∧
     ∀ r, hashRdfcJcs env t c P256 = .ok r → r.length = 64) ∧
    (hashRdfcJcs env t c P384 =
       .ok (env.digest SHA384 (utf8Encode c) ++ env.digest SHA384 (utf8Encode t)) ∧
     ∀ r, hashRdfcJcs env t c P384 = .ok r → r.length = 96) := by
  refine ⟨⟨rfl, ?_⟩, ⟨rfl, ?_⟩⟩
  · intro r hr
    have h0 : hashRdfcJcs env t c P256 =
        .ok (env.digest SHA256 (utf8Encode c) ++ env.digest SHA256 (utf8Encode t)) :=
      rfl
    rw [h0] at hr
    have h2 := Except.ok.inj hr
    rw [← h2, List.length_append, h256, h256]
  · intro r hr
    have h0 : hashRdfcJcs env t c P384 =
        .ok (env.digest SHA384 (utf8Encode c) ++ env.digest SHA384 (utf8Encode t)) :=
      rfl
    rw [h0] at hr
    have h2 := Except.ok.inj hr
    rw [← h2, List.length_append, h384, h384]

/-- C7 witness: at the concrete Web Crypto model (whose SHA-256 digests have
32 bytes and SHA-384 digests 48 bytes), hashing at P-256 yields the 64-byte
concatenation and hashing at P-384 the 96-byte one. -/
theorem hashRdfcJcs_concat_length_witness :
    (∀ d, (wEnv.digest SHA256 d).length = 32) ∧
    (∀ d, (wEnv.digest SHA384 d).length = 48) ∧
    hashRdfcJcs wEnv [] [] P256 =
      .ok (wEnv.digest SHA256 (utf8Encode []) ++ wEnv.digest SHA256 (utf8Encode [])) ∧
    (∀ r, hashRdfcJcs wEnv [] [] P256 = .ok r → r.length = 64) := by
  refine ⟨fun d => rfl, fun d => rfl, ?_, ?_⟩
  · exact (hashRdfcJcs_concat_length wEnv [] [] (fun d => rfl)
      (fun d => rfl)).1.1
  · exact (hashRdfcJcs_concat_length wEnv [] [] (fun d => rfl)
      (fun d => rfl)).1.2

/-- C4: serialization and parsing of SD proof values are mutually inverse on
well-formed base and derived proof values, and the embedded label map (the
decompression of a compressed map of byte-string values) compresses back to
the same compressed map. -/
theorem proof_value_serialization_inverse :
    (∀ v : BaseProofValue, WellFormedBase v →
      (serializeBaseProofValue v).bind parseBaseProofValue = .ok v) ∧
    (∀ (w : DerivedProofValue) (M : List (Nat × List Nat)),
      WellFormedDerived w M →
      (serializeDerivedProofValue w).bind parseDerivedProofValue = .ok w) ∧
    (∀ M : List (Nat × List Nat), (∀ kv ∈ M, allBytes kv.2) →
      compressLabelMap (decompressLabelMap M) = .ok M) :=
  ⟨parseBase_serializeBase, parseDerived_serializeDerived,
    compressLabelMap_decompressLabelMap⟩

def wBase : BaseProofValue :=
  ⟨List.replicate 64 1, List.replicate 35 2, List.replicate 32 3,
    [List.replicate 64 4], [strCodes "/issuer"]⟩

def wM : List (Nat × List Nat) := [(0, [5]), (3, [6, 7])]

def wDerived : DerivedProofValue :=
  ⟨List.replicate 64 1, List.replicate 35 2, [List.replicate 64 4],
    decompressLabelMap wM, [0, 2]⟩

/-- C4 witness: the round trips at a concrete well-formed base proof value,
derived proof value and compressed label map. -/
theorem proof_value_serialization_inverse_witness :
    WellFormedBase wBase ∧ WellFormedDerived wDerived wM ∧
    (∀ kv ∈ wM, allBytes kv.2) ∧
    (serializeBaseProofValue wBase).bind parseBaseProofValue = .ok wBase ∧
    (serializeDerivedProofValue wDerived).bind parseDerivedProofValue =
      .ok wDerived ∧
    compressLabelMap (decompressLabelMap wM) = .ok wM :=
  ⟨by decide, by decide, by decide,
    proof_value_serialization_inverse.1 wBase (by decide),
    proof_value_serialization_inverse.2.1 wDerived wM (by decide),
    proof_value_serialization_inverse.2.2 wM (by decide)⟩

/-- C5 counterexample: the multibase round trip fails on public key material —
for the valid 64-byte uncompressed P-256 public material of all zero bytes,
`multibaseToMaterial (materialToMultibase m public P-256) public P-256`
returns the 33-byte compressed point, not `m`. -/
theorem material_multibase_roundtrip_cex :
    (materialToMultibase (List.replicate 64 0) FLAG_PUBLIC P256).bind
      (fun s => multibaseToMaterial s FLAG_PUBLIC P256) ≠
      .ok (List.replicate 64 0) := by
  intro h
  have h0 : (materialToMultibase (List.replicate 64 0) FLAG_PUBLIC P256).bind
      (fun s => multibaseToMaterial s FLAG_PUBLIC P256) =
      Except.ok (2 :: List.replicate 32 0) := rfl
  rw [h0] at h
  exact absurd (Except.ok.inj h) (by decide)

theorem compressPublic_length (m : List Nat) :
    (compressPublic m).length = m.length / 2 + 1 := by
  have h1 : (m.take (m.length / 2)).length = m.length / 2 := by
    rw [List.length_take]
    exact Nat.min_eq_left (Nat.div_le_self _ _)
  rw [compressPublic]
  split_ifs <;>
    (simp only [List.length_append, List.length_cons, List.length_nil, h1]; omega)

theorem allBytes_compressPublic (m : List Nat) (hm : allBytes m) :
    allBytes (compressPublic m) := by
  intro x hx
  rw [compressPublic] at hx
  rcases List.mem_append.mp hx with h | h
  · split_ifs at h <;> (rw [List.mem_singleton] at h; omega)
  · exact hm x (List.take_subset _ _ h)

/-- C5 (amended): for private key material of the curve's uncompressed length
the multibase round trip returns the material unchanged; for public key
material it returns the compressed point `compressPublic m` (33 or 49 bytes),
not the uncompressed input. -/
theorem material_multibase_roundtrip_amended :
    (∀ (m : List Nat) (c : Str), (c = P256 ∨ c = P384) → allBytes m →
      m.length = (KEY_UNCOMPRESSED_LENGTH FLAG_PRIVATE c).getD 0 →
      (materialToMultibase m FLAG_PRIVATE c).bind
        (fun s => multibaseToMaterial s FLAG_PRIVATE c) = .ok m) ∧
    (∀ (m : List Nat) (c : Str), (c = P256 ∨ c = P384) → allBytes m →
      m.length = (KEY_UNCOMPRESSED_LENGTH FLAG_PUBLIC c).getD 0 →
      (materialToMultibase m FLAG_PUBLIC c).bind
        (fun s => multibaseToMaterial s FLAG_PUBLIC c) =
        .ok (compressPublic m)) := by
  constructor
  · intro m c hc hm hlen
    rcases hc with rfl | rfl
    · have hlen' : m.length = 32 := hlen
      rw [materialToMultibase]
      rw [show MULTIBASE FLAG_PRIVATE P256 = some "8626" from rfl,
        show KEY_UNCOMPRESSED_LENGTH FLAG_PRIVATE P256 = some 32 from rfl]
      try dsimp only
      rw [if_neg (show ¬m.length ≠ 32 from fun h => h hlen'), if_pos rfl]
      show multibaseToMaterial (base58btcEncode (hexToBytes "8626" ++ m))
        FLAG_PRIVATE P256 = .ok m
      rw [multibaseToMaterial,
        base58btcDecode_base58btcEncode _ (allBytes_append _ _ (by decide) hm)]
      try dsimp only
      rw [show MULTIBASE FLAG_PRIVATE P256 = some "8626" from rfl,
        show KEY_COMPRESSED_LENGTH FLAG_PRIVATE P256 = some 32 from rfl]
      try dsimp only
      rw [take_append_of_length _ _ _ rfl, if_pos rfl,
        drop_append_of_length _ _ _ rfl,
        if_neg (show ¬m.length ≠ 32 from fun h => h hlen')]
    · have hlen' : m.length = 48 := hlen
      rw [materialToMultibase]
      rw [show MULTIBASE FLAG_PRIVATE P384 = some "8726" from rfl,
        show KEY_UNCOMPRESSED_LENGTH FLAG_PRIVATE P384 = some 48 from rfl]
      try dsimp only
      rw [if_neg (show ¬m.length ≠ 48 from fun h => h hlen'), if_pos rfl]
      show multibaseToMaterial (base58btcEncode (hexToBytes "8726" ++ m))
        FLAG_PRIVATE P384 = .ok m
      rw [multibaseToMaterial,
        base58btcDecode_base58btcEncode _ (allBytes_append _ _ (by decide) hm)]
      try dsimp only
      rw [show MULTIBASE FLAG_PRIVATE P384 = some "8726" from rfl,
        show KEY_COMPRESSED_LENGTH FLAG_PRIVATE P384 = some 48 from rfl]
      try dsimp only
      rw [take_append_of_length _ _ _ rfl, if_pos rfl,
        drop_append_of_length _ _ _ rfl,
        if_neg (show ¬m.length ≠ 48 from fun h => h hlen')]
  · intro m c hc hm hlen
    rcases hc with rfl | rfl
    · have hlen' : m.length = 64 := hlen
      have hcl : (compressPublic m).length = 33 := by
        rw [compressPublic_length, hlen']
      rw [materialToMultibase]
      rw [show MULTIBASE FLAG_PUBLIC P256 = some "8024" from rfl,
        show KEY_UNCOMPRESSED_LENGTH FLAG_PUBLIC P256 = some 64 from rfl]
      try dsimp only
      rw [if_neg (show ¬m.length ≠ 64 from fun h => h hlen'),
        if_neg (by decide : ¬FLAG_PUBLIC = FLAG_PRIVATE)]
      show multibaseToMaterial
        (base58btcEncode (hexToBytes "8024" ++ compressPublic m))
        FLAG_PUBLIC P256 = .ok (compressPublic m)
      rw [multibaseToMaterial,
        base58btcDecode_base58btcEncode _
          (allBytes_append _ _ (by decide) (allBytes_compressPublic m hm))]
      try dsimp only
      rw [show MULTIBASE FLAG_PUBLIC P256 = some "8024" from rfl,
        show KEY_COMPRESSED_LENGTH FLAG_PUBLIC P256 = some 33 from rfl]
      try dsimp only
      rw [take_append_of_length _ _ _ rfl, if_pos rfl,
        drop_append_of_length _ _ _ rfl,
        if_neg (show ¬(compressPublic m).length ≠ 33 from fun h => h hcl)]
    · have hlen' : m.length = 96 := hlen
      have hcl : (compressPublic m).length = 49 := by
        rw [compressPublic_length, hlen']
      rw [materialToMultibase]
      rw [show MULTIBASE FLAG_PUBLIC P384 = some "8124" from rfl,
        show KEY_UNCOMPRESSED_LENGTH FLAG_PUBLIC P384 = some 96 from rfl]
      try dsimp only
      rw [if_neg (show ¬m.length ≠ 96 from fun h => h hlen'),
        if_neg (by decide : ¬FLAG_PUBLIC = FLAG_PRIVATE)]
      show multibaseToMaterial
        (base58btcEncode (hexToBytes "8124" ++ compressPublic m))
        FLAG_PUBLIC P384 = .ok (compressPublic m)
      rw [multibaseToMaterial,
        base58btcDecode_base58btcEncode _
          (allBytes_append _ _ (by decide) (allBytes_compressPublic m hm))]
      try dsimp only
      rw [show MULTIBASE FLAG_PUBLIC P384 = some "8124" from rfl,
        show KEY_COMPRESSED_LENGTH FLAG_PUBLIC P384 = some 49 from rfl]
      try dsimp only
      rw [take_append_of_length _ _ _ rfl, if_pos rfl,
        drop_append_of_length _ _ _ rfl,
        if_neg (show ¬(compressPublic m).length ≠ 49 from fun h => h hcl)]

/-- C5 witness: the amended round trips at a concrete 32-byte private material
and a concrete 64-byte public material, both P-256. -/
theorem material_multibase_roundtrip_amended_witness :
    allBytes (List.replicate 32 7) ∧
    (List.replicate 32 7).length =
      (KEY_UNCOMPRESSED_LENGTH FLAG_PRIVATE P256).getD 0 ∧
    (materialToMultibase (List.replicate 32 7) FLAG_PRIVATE P256).bind
      (fun s => multibaseToMaterial s FLAG_PRIVATE P256) =
      .ok (List.replicate 32 7) ∧
    (materialToMultibase (List.replicate 64 0) FLAG_PUBLIC P256).bind
      (fun s => multibaseToMaterial s FLAG_PUBLIC P256) =
      .ok (compressPublic (List.replicate 64 0)) :=
  ⟨by decide, by decide,
    material_multibase_roundtrip_amended.1 _ P256 (Or.inl rfl) (by decide)
      (by decide),
    material_multibase_roundtrip_amended.2 _ P256 (Or.inl rfl) (by decide)
      (by decide)⟩

/-! ## Helper lemmas for the key layer -/

/-- A successful public `keyToMaterial` yields material of the curve's
uncompressed length, made of bytes whenever the DER export is. -/
theorem keyToMaterial_public_ok (env : CryptoEnv) (key : Nat) (c : Str)
    (m : List Nat) (hc : c = P256 ∨ c = P384)
    (h : keyToMaterial env key FLAG_PUBLIC c = .ok m)
    (hexb : allBytes (env.exportKey "spki" key)) :
    m.length = (KEY_UNCOMPRESSED_LENGTH FLAG_PUBLIC c).getD 0 ∧ allBytes m := by
  rcases hc with rfl | rfl
  · rw [keyToMaterial] at h
    split at h
    · exact Except.noConfusion h
    rw [show KEY_FORMAT FLAG_PUBLIC = some "spki" from rfl,
      show DER_UNCOMPRESSED FLAG_PUBLIC P256 =
        some "3059301306072a8648ce3d020106082a8648ce3d03010703420004" from rfl,
      show KEY_UNCOMPRESSED_LENGTH FLAG_PUBLIC P256 = some 64 from rfl,
      show KEY_UNCOMPRESSED_LENGTH FLAG_PRIVATE P256 = some 32 from rfl] at h
    dsimp only at h
    split at h
    · split at h
      · rename_i hcontra
        exact absurd hcontra (by decide)
      · split at h
        · exact Except.noConfusion h
        · rename_i hexlen
          have hm := Except.ok.inj h
          constructor
          · rw [← hm, List.length_take, List.length_drop]
            exact Nat.min_eq_left (by omega)
          · intro x hx
            rw [← hm] at hx
            exact hexb x (List.drop_subset _ _ (List.take_subset _ _ hx))
    · exact Except.noConfusion h
  · rw [keyToMaterial] at h
    split at h
    · exact Except.noConfusion h
    rw [show KEY_FORMAT FLAG_PUBLIC = some "spki" from rfl,
      show DER_UNCOMPRESSED FLAG_PUBLIC P384 =
        some "3076301006072a8648ce3d020106052b8104002203620004" from rfl,
      show KEY_UNCOMPRESSED_LENGTH FLAG_PUBLIC P384 = some 96 from rfl,
      show KEY_UNCOMPRESSED_LENGTH FLAG_PRIVATE P384 = some 48 from rfl] at h
    dsimp only at h
    split at h
    · split at h
      · rename_i hcontra
        exact absurd hcontra (by decide)
      · split at h
        · exact Except.noConfusion h
        · rename_i hexlen
          have hm := Except.ok.inj h
          constructor
          · rw [← hm, List.length_take, List.length_drop]
            exact Nat.min_eq_left (by omega)
          · intro x hx
            rw [← hm] at hx
            exact hexb x (List.drop_subset _ _ (List.take_subset _ _ hx))
    · exact Except.noConfusion h

theorem materialToMultibase_public_p256 (material : List Nat)
    (hlen : material.length = 64) :
    materialToMultibase material FLAG_PUBLIC P256 =
      .ok (base58btcEncode (hexToBytes "8024" ++ compressPublic material)) := by
  rw [materialToMultibase]
  rw [show MULTIBASE FLAG_PUBLIC P256 = some "8024" from rfl,
    show KEY_UNCOMPRESSED_LENGTH FLAG_PUBLIC P256 = some 64 from rfl]
  try dsimp only
  rw [if_neg (show ¬material.length ≠ 64 from fun hne => hne hlen),
    if_neg (by decide : ¬FLAG_PUBLIC = FLAG_PRIVATE)]

theorem materialToMultibase_public_p384 (material : List Nat)
    (hlen : material.length = 96) :
    materialToMultibase material FLAG_PUBLIC P384 =
      .ok (base58btcEncode (hexToBytes "8124" ++ compressPublic material)) := by
  rw [materialToMultibase]
  rw [show MULTIBASE FLAG_PUBLIC P384 = some "8124" from rfl,
    show KEY_UNCOMPRESSED_LENGTH FLAG_PUBLIC P384 = some 96 from rfl]
  try dsimp only
  rw [if_neg (show ¬material.length ≠ 96 from fun hne => hne hlen),
    if_neg (by decide : ¬FLAG_PUBLIC = FLAG_PRIVATE)]

/-- `multibaseToMaterial` at P-256, applied to the encoding of a 35-byte
public key with the `0x8024` header, strips the header. -/
theorem multibaseToMaterial_encode_p256 (bs : List Nat) (hb : allBytes bs)
    (hlen : bs.length = 35) (hpre : bs.take 2 = hexToBytes "8024") :
    multibaseToMaterial (base58btcEncode bs) FLAG_PUBLIC P256 =
      .ok (bs.drop 2) := by
  have hd : (bs.drop 2).length = 33 := by
    rw [List.length_drop, hlen]
  rw [multibaseToMaterial, base58btcDecode_base58btcEncode _ hb]
  try dsimp only
  rw [show MULTIBASE FLAG_PUBLIC P256 = some "8024" from rfl,
    show KEY_COMPRESSED_LENGTH FLAG_PUBLIC P256 = some 33 from rfl]
  try dsimp only
  rw [show ((hexToBytes "8024" : List Nat)).length = 2 from rfl, if_pos hpre,
    if_neg (show ¬(bs.drop 2).length ≠ 33 from fun hne => hne hd)]

theorem materialToPublicKey_p256 (env : CryptoEnv) (m : List Nat)
    (hlen : m.length = 33) :
    materialToPublicKey env m P256 =
      .ok (env.importKey
        (hexToBytes "3039301306072a8648ce3d020106082a8648ce3d030107032200" ++ m)) := by
  rw [materialToPublicKey]
  rw [show KEY_FORMAT FLAG_PUBLIC = some "spki" from rfl,
    show KEY_COMPRESSED_LENGTH FLAG_PUBLIC P256 = some 33 from rfl,
    show DER_COMPRESSED FLAG_PUBLIC P256 =
      some "3039301306072a8648ce3d020106082a8648ce3d030107032200" from rfl]
  try dsimp only
  rw [if_neg (show ¬m.length ≠ 33 from fun hne => hne hlen)]

/-- C2: in `serializeSd` the proof-scoped keypair is pinned to P-256 whatever
the issuer's curve: the base proof value's `publicKey` is the 2-byte
multicodec header `0x8024` followed by the 33-byte compressed P-256 point
(35 bytes in all), and every per-statement signature over a non-mandatory
N-Quad is produced with the P-256 digest SHA-256 under the proof-scoped
private key; only the issuer signature uses the digest of `options.curve`. -/
theorem serializeSd_psk_p256 (γ : Type) (env : CryptoEnv) (menv : MethodEnv)
    (pskSk pskPk : Nat) (hashData : HashDataSd) (curve : Str)
    (proof : ProofRec γ) (kp : ECKeypairMRec) (sk : Nat) (material : List Nat)
    (alg : Str)
    (hmat : keyToMaterial env pskPk FLAG_PUBLIC P256 = .ok material)
    (hexb : allBytes (env.exportKey "spki" pskPk))
    (hres : menv.resolveImport proof.verificationMethod curve = .ok kp)
    (hsk : kp.privateKey = some sk)
    (halg : curveToDigestAlgorithm curve = .ok alg) :
    (hexToBytes "8024" ++ compressPublic material).length = 35 ∧
    serializeSd env menv pskSk pskPk hashData curve proof =
      serializeBaseProofValue
        ⟨env.signK alg sk
            (serializeSignData hashData.proofHash
              (hexToBytes "8024" ++ compressPublic material)
              hashData.mandatoryHash),
          hexToBytes "8024" ++ compressPublic material,
          hashData.hmacKey,
          hashData.nonMandatory.map
            (fun nQuad => env.signK SHA256 pskSk (utf8Encode nQuad)),
          hashData.mandatoryPointers⟩ := by
  obtain ⟨hlen, hmb⟩ :=
    keyToMaterial_public_ok env pskPk P256 material (Or.inl rfl) hmat hexb
  have hlen' : material.length = 64 := hlen
  have hpkb : allBytes (hexToBytes "8024" ++ compressPublic material) :=
    allBytes_append _ _ (by decide) (allBytes_compressPublic material hmb)
  constructor
  · rw [List.length_append, compressPublic_length, hlen']
    rfl
  · rw [serializeSd]
    rw [show curveToDigestAlgorithm P256 = .ok SHA256 from rfl]
    dsimp only
    rw [hmat]
    dsimp only
    rw [materialToMultibase_public_p256 material hlen']
    dsimp only
    rw [base58btcDecode_base58btcEncode _ hpkb]
    dsimp only
    rw [hres]
    dsimp only
    rw [hsk]
    dsimp only
    rw [halg]

/-- C2 witness: at the concrete environments (the issuer resolving at curve
P-384), the serialized base proof value carries the 35-byte `0x8024`-headed
P-256 public key, SHA-256 per-statement signatures under the proof-scoped
key, and a SHA-384 issuer signature. -/
theorem serializeSd_psk_p256_witness :
    keyToMaterial wEnv 0 FLAG_PUBLIC P256 = .ok (List.replicate 64 0) ∧
    allBytes (wEnv.exportKey "spki" 0) ∧
    wMenv.resolveImport wProofOptions.verificationMethod P384 = .ok wKp ∧
    wKp.privateKey = some 0 ∧
    curveToDigestAlgorithm P384 = .ok SHA384 ∧
    (hexToBytes "8024" ++ compressPublic (List.replicate 64 0)).length = 35 ∧
    serializeSd wEnv wMenv 0 0 ⟨[], [], List.replicate 32 3, [], []⟩ P384
        wProofOptions =
      serializeBaseProofValue
        ⟨wEnv.signK SHA384 0
            (serializeSignData []
              (hexToBytes "8024" ++ compressPublic (List.replicate 64 0)) []),
          hexToBytes "8024" ++ compressPublic (List.replicate 64 0),
          List.replicate 32 3, [], []⟩ := by
  refine ⟨rfl, by decide, rfl, rfl, rfl, ?_, ?_⟩
  · exact (serializeSd_psk_p256 Unit wEnv wMenv 0 0
      ⟨[], [], List.replicate 32 3, [], []⟩ P384 wProofOptions wKp 0
      (List.replicate 64 0) SHA384 rfl (by decide) rfl rfl rfl).1
  · exact (serializeSd_psk_p256 Unit wEnv wMenv 0 0
      ⟨[], [], List.replicate 32 3, [], []⟩ P384 wProofOptions wKp 0
      (List.replicate 64 0) SHA384 rfl (by decide) rfl rfl rfl).2

/-- C8: in `verifySd` a signature count different from the number of
non-mandatory N-Quads raises `PROOF_VERIFICATION_ERROR` before anything else;
with equal counts the result is the boolean AND of the base-signature check
and the per-statement checks under the reconstructed proof-scoped P-256
public key. -/
theorem verifySd_signature_count :
    (∀ (γ : Type) (env : CryptoEnv) (menv : MethodEnv) (vd : VerifyDataSd)
       (proof : ProofRec γ) (curve : Str),
       vd.signatures.length ≠ vd.nonMandatory.length →
       verifySd env menv (.ok vd) proof curve =
         .error .PROOF_VERIFICATION_ERROR) ∧
    (∀ (γ : Type) (env : CryptoEnv) (menv : MethodEnv) (vd : VerifyDataSd)
       (proof : ProofRec γ) (curve : Str) (kp : ECKeypairMRec) (pk : Nat)
       (alg : Str),
       vd.signatures.length = vd.nonMandatory.length →
       menv.resolveImport proof.verificationMethod curve = .ok kp →
       kp.publicKey = some pk →
       curveToDigestAlgorithm curve = .ok alg →
       vd.publicKey.length = 35 → vd.publicKey.take 2 = hexToBytes "8024" →
       allBytes vd.publicKey →
       verifySd env menv (.ok vd) proof curve =
         .ok (env.verifyK alg pk vd.baseSignature
                (serializeSignData vd.proofHash vd.publicKey vd.mandatoryHash) &&
              ((vd.signatures.zip vd.nonMandatory).map
                (fun p => env.verifyK SHA256
                  (env.importKey
                    (hexToBytes
                      "3039301306072a8648ce3d020106082a8648ce3d030107032200" ++
                      vd.publicKey.drop 2))
                  p.1 (utf8Encode p.2))).all (fun b => b))) := by
  constructor
  · intro γ env menv vd proof curve hne
    rw [verifySd]
    dsimp only
    rw [if_pos hne]
  · intro γ env menv vd proof curve kp pk alg heq hres hpk halg h35 hpre hpkb
    have hd : (vd.publicKey.drop 2).length = 33 := by
      rw [List.length_drop, h35]
    rw [verifySd]
    dsimp only
    rw [if_neg (show ¬vd.signatures.length ≠ vd.nonMandatory.length from
      fun hne => hne heq)]
    rw [hres]
    dsimp only
    rw [hpk]
    dsimp only
    rw [halg]
    dsimp only
    rw [show curveToDigestAlgorithm P256 = .ok SHA256 from rfl]
    dsimp only
    rw [multibaseToMaterial_encode_p256 vd.publicKey hpkb h35 hpre]
    dsimp only
    rw [materialToPublicKey_p256 env (vd.publicKey.drop 2) hd]

/-- C8 witness: with equal (empty) counts and the concrete environments, the
verification result is the AND of the base check and the (empty) statement
checks; with a one-signature surplus it raises `PROOF_VERIFICATION_ERROR`. -/
theorem verifySd_signature_count_witness :
    ([[0]] : List (List Nat)).length ≠ ([] : List Str).length ∧
    verifySd wEnv wMenv
      (.ok ⟨[0], [], hexToBytes "8024" ++ List.replicate 33 1, [[0]], [], []⟩)
      wProofOptions P256 = .error .PROOF_VERIFICATION_ERROR ∧
    verifySd wEnv wMenv
      (.ok ⟨[0], [], hexToBytes "8024" ++ List.replicate 33 1, [], [], []⟩)
      wProofOptions P256 =
      .ok (wEnv.verifyK SHA256 0 [0]
            (serializeSignData [] (hexToBytes "8024" ++ List.replicate 33 1) []) &&
          (([] : List (List Nat × Str)).map
            (fun p => wEnv.verifyK SHA256
              (wEnv.importKey
                (hexToBytes
                  "3039301306072a8648ce3d020106082a8648ce3d030107032200" ++
                  (hexToBytes "8024" ++ List.replicate 33 1).drop 2))
              p.1 (utf8Encode p.2))).all (fun b => b)) := by
  refine ⟨by decide, ?_, ?_⟩
  · exact verifySd_signature_count.1 Unit wEnv wMenv
      ⟨[0], [], hexToBytes "8024" ++ List.replicate 33 1, [[0]], [], []⟩
      wProofOptions P256 (by decide)
  · exact verifySd_signature_count.2 Unit wEnv wMenv
      ⟨[0], [], hexToBytes "8024" ++ List.replicate 33 1, [], [], []⟩
      wProofOptions P256 wKp 0 SHA256 rfl rfl rfl rfl (by decide) (by decide)
      (by decide)

/-- C9: for a keypair with a public key, `generateFingerprint` returns the
base58btc multibase string (its header is the letter `z`) of the curve's
2-byte multicodec header concatenated with the compressed public point, and
`verifyFingerprint` accepts exactly that fingerprint; the fingerprint is a
function of the curve and the compressed point alone. -/
theorem fingerprint_roundtrip (env : CryptoEnv) (kp : ECKeypairMRec) (pk : Nat)
    (material : List Nat) (hpk : kp.publicKey = some pk)
    (hc : kp.curve = P256 ∨ kp.curve = P384)
    (hmat : keyToMaterial env pk FLAG_PUBLIC kp.curve = .ok material)
    (hexb : allBytes (env.exportKey "spki" pk)) :
    ∃ f, generateFingerprint env kp = .ok f ∧
      f = base58btcEncode
        (hexToBytes ((MULTIBASE FLAG_PUBLIC kp.curve).getD "") ++
          compressPublic material) ∧
      f.headD 0 = 122 ∧
      verifyFingerprint env kp f = .ok true := by
  have hg : generateFingerprint env kp =
      .ok (base58btcEncode
        (hexToBytes ((MULTIBASE FLAG_PUBLIC kp.curve).getD "") ++
          compressPublic material)) := by
    obtain ⟨hlen, -⟩ :=
      keyToMaterial_public_ok env pk kp.curve material hc hmat hexb
    rw [generateFingerprint, hpk]
    dsimp only
    rw [hmat]
    dsimp only
    rcases hc with h | h
    · rw [h] at hlen ⊢
      rw [materialToMultibase_public_p256 material hlen]
      rfl
    · rw [h] at hlen ⊢
      rw [materialToMultibase_public_p384 material hlen]
      rfl
  refine ⟨_, hg, rfl, ?_, ?_⟩
  · rw [base58btcEncode]
    rfl
  · rw [verifyFingerprint, hg]
    dsimp only
    simp

/-- C9 witness: the concrete P-256 keypair's fingerprint is the base58btc
string of `0x8024` followed by the compressed all-zero point, and it verifies
against itself. -/
theorem fingerprint_roundtrip_witness :
    wKp.publicKey = some 0 ∧
    keyToMaterial wEnv 0 FLAG_PUBLIC wKp.curve = .ok (List.replicate 64 0) ∧
    ∃ f, generateFingerprint wEnv wKp = .ok f ∧
      f = base58btcEncode
        (hexToBytes ((MULTIBASE FLAG_PUBLIC wKp.curve).getD "") ++
          compressPublic (List.replicate 64 0)) ∧
      f.headD 0 = 122 ∧
      verifyFingerprint wEnv wKp f = .ok true :=
  ⟨rfl, rfl,
    fingerprint_roundtrip wEnv wKp 0 (List.replicate 64 0) rfl (Or.inl rfl)
      rfl (by decide)⟩

/-- C1: securing a proof-free credential with `EcdsaRdfc2019.createProof`
(valid proof options, resolvable verification method holding the matching
keypair) and verifying the secured credential with
`EcdsaRdfc2019.verifyProof` returns `verified = true` with `verifiedDocument`
equal to the secured document minus its proof, at either curve; and any
verification result carries a `verifiedDocument` only when `verified` is
true. -/
theorem rdfc_create_verify_roundtrip (α γ : Type) (env : CryptoEnv)
    (cenv : CanonEnv α γ) (menv : MethodEnv) (doc : Credential α γ)
    (curve : Str) (proofOptions : ProofRec γ) (kp : ECKeypairMRec) (sk pk : Nat)
    (hcurve : curve = P256 ∨ curve = P384)
    (hdoc : doc.proof = none)
    (htype : proofOptions.type = TYPE_DIP)
    (hsuite : proofOptions.cryptosuite = SUITE_RDFC)
    (hpv : proofOptions.proofValue = none)
    (hcreated : createdCheckFails env.parseDate proofOptions.created = false)
    (hres : menv.resolveImport proofOptions.verificationMethod curve = .ok kp)
    (hsk : kp.privateKey = some sk)
    (hpk : kp.publicKey = some pk)
    (hsigb : ∀ hn d, allBytes (env.signK hn sk d))
    (hvk : ∀ hn d, env.verifyK hn pk (env.signK hn sk d) d = true) :
    (∃ producedProof,
      EcdsaRdfc2019_createProof env cenv menv doc curve proofOptions =
        .ok producedProof ∧
      EcdsaRdfc2019_verifyProof env cenv menv
        { doc with proof := some producedProof } curve =
        .ok ⟨true, some doc⟩) ∧
    (∀ (secured : Credential α γ) (res : VerificationResult α γ),
      EcdsaRdfc2019_verifyProof env cenv menv secured curve = .ok res →
      res.verified = false → res.verifiedDocument = none) := by
  constructor
  · obtain ⟨body, ctx, prf⟩ := doc
    obtain ⟨ty, cs, cr, vm, pp, cx, pv⟩ := proofOptions
    dsimp only at hdoc htype hsuite hpv hcreated hres
    subst hdoc htype hsuite hpv
    rcases hcurve with rfl | rfl
    · have hconf : configRdfc env cenv (⟨body, ctx, none⟩ : Credential α γ)
          (⟨TYPE_DIP, SUITE_RDFC, cr, vm, pp, cx, none⟩ : ProofRec γ) =
          .ok (cenv.rdfcProof ⟨TYPE_DIP, SUITE_RDFC, cr, vm, pp, ctx, none⟩) := by
        rw [configRdfc, if_neg (by simp), if_neg (by simp [hcreated])]
      have htr : transformRdfc cenv (⟨body, ctx, none⟩ : Credential α γ)
          (⟨TYPE_DIP, SUITE_RDFC, cr, vm, pp, cx, none⟩ : ProofRec γ) =
          .ok (cenv.rdfcDoc ⟨body, ctx, none⟩) := by
        rw [transformRdfc, if_neg (by simp)]
      have hser : ∀ h : List Nat, serializeRdfcJcs env menv h P256
          (⟨TYPE_DIP, SUITE_RDFC, cr, vm, pp, cx, none⟩ : ProofRec γ) =
          .ok (env.signK SHA256 sk h) := by
        intro h
        rw [serializeRdfcJcs]
        try dsimp only
        rw [hres]
        try dsimp only
        rw [hsk]
        try dsimp only
        rw [if_pos rfl]
      have hver : ∀ h pb : List Nat, verifyRdfcJcs env menv h pb P256
          (⟨TYPE_DIP, SUITE_RDFC, cr, vm, pp, cx, none⟩ : ProofRec γ) =
          .ok (env.verifyK SHA256 pk pb h) := by
        intro h pb
        rw [verifyRdfcJcs]
        try dsimp only
        rw [hres]
        try dsimp only
        rw [hpk]
        try dsimp only
        rw [if_pos rfl]
      have hhash : hashRdfcJcs env (cenv.rdfcDoc ⟨body, ctx, none⟩)
          (cenv.rdfcProof ⟨TYPE_DIP, SUITE_RDFC, cr, vm, pp, ctx, none⟩) P256 =
          .ok (env.digest SHA256 (utf8Encode
              (cenv.rdfcProof ⟨TYPE_DIP, SUITE_RDFC, cr, vm, pp, ctx, none⟩)) ++
            env.digest SHA256 (utf8Encode (cenv.rdfcDoc ⟨body, ctx, none⟩))) := rfl
      refine ⟨⟨TYPE_DIP, SUITE_RDFC, cr, vm, pp, cx,
        some (base58btcEncode (env.signK SHA256 sk
          (env.digest SHA256 (utf8Encode
              (cenv.rdfcProof ⟨TYPE_DIP, SUITE_RDFC, cr, vm, pp, ctx, none⟩)) ++
            env.digest SHA256 (utf8Encode (cenv.rdfcDoc ⟨body, ctx, none⟩)))))⟩,
        ?_, ?_⟩
      · rw [EcdsaRdfc2019_createProof, hconf]
        try dsimp only
        rw [htr]
        try dsimp only
        rw [hhash]
        try dsimp only
        rw [hser]
      · rw [EcdsaRdfc2019_verifyProof]
        try dsimp only
        rw [base58btcDecode_base58btcEncode _ (hsigb SHA256 _)]
        try dsimp only
        rw [htr]
        try dsimp only
        rw [hconf]
        try dsimp only
        rw [hhash]
        try dsimp only
        rw [hver]
        try dsimp only
        rw [hvk SHA256 _]
        rfl
    · have hconf : configRdfc env cenv (⟨body, ctx, none⟩ : Credential α γ)
          (⟨TYPE_DIP, SUITE_RDFC, cr, vm, pp, cx, none⟩ : ProofRec γ) =
          .ok (cenv.rdfcProof ⟨TYPE_DIP, SUITE_RDFC, cr, vm, pp, ctx, none⟩) := by
        rw [configRdfc, if_neg (by simp), if_neg (by simp [hcreated])]
      have htr : transformRdfc cenv (⟨body, ctx, none⟩ : Credential α γ)
          (⟨TYPE_DIP, SUITE_RDFC, cr, vm, pp, cx, none⟩ : ProofRec γ) =
          .ok (cenv.rdfcDoc ⟨body, ctx, none⟩) := by
        rw [transformRdfc, if_neg (by simp)]
      have hser : ∀ h : List Nat, serializeRdfcJcs env menv h P384
          (⟨TYPE_DIP, SUITE_RDFC, cr, vm, pp, cx, none⟩ : ProofRec γ) =
          .ok (env.signK SHA384 sk h) := by
        intro h
        rw [serializeRdfcJcs]
        try dsimp only
        rw [hres]
        try dsimp only
        rw [hsk]
        try dsimp only
        rw [if_neg (by decide), if_pos rfl]
      have hver : ∀ h pb : List Nat, verifyRdfcJcs env menv h pb P384
          (⟨TYPE_DIP, SUITE_RDFC, cr, vm, pp, cx, none⟩ : ProofRec γ) =
          .ok (env.verifyK SHA384 pk pb h) := by
        intro h pb
        rw [verifyRdfcJcs]
        try dsimp only
        rw [hres]
        try dsimp only
        rw [hpk]
        try dsimp only
        rw [if_neg (by decide), if_pos rfl]
      have hhash : hashRdfcJcs env (cenv.rdfcDoc ⟨body, ctx, none⟩)
          (cenv.rdfcProof ⟨TYPE_DIP, SUITE_RDFC, cr, vm, pp, ctx, none⟩) P384 =
          .ok (env.digest SHA384 (utf8Encode
              (cenv.rdfcProof ⟨TYPE_DIP, SUITE_RDFC, cr, vm, pp, ctx, none⟩)) ++
            env.digest SHA384 (utf8Encode (cenv.rdfcDoc ⟨body, ctx, none⟩))) := rfl
      refine ⟨⟨TYPE_DIP, SUITE_RDFC, cr, vm, pp, cx,
        some (base58btcEncode (env.signK SHA384 sk
          (env.digest SHA384 (utf8Encode
              (cenv.rdfcProof ⟨TYPE_DIP, SUITE_RDFC, cr, vm, pp, ctx, none⟩)) ++
            env.digest SHA384 (utf8Encode (cenv.rdfcDoc ⟨body, ctx, none⟩)))))⟩,
        ?_, ?_⟩
      · rw [EcdsaRdfc2019_createProof, hconf]
        try dsimp only
        rw [htr]
        try dsimp only
        rw [hhash]
        try dsimp only
        rw [hser]
      · rw [EcdsaRdfc2019_verifyProof]
        try dsimp only
        rw [base58btcDecode_base58btcEncode _ (hsigb SHA384 _)]
        try dsimp only
        rw [htr]
        try dsimp only
        rw [hconf]
        try dsimp only
        rw [hhash]
        try dsimp only
        rw [hver]
        try dsimp only
        rw [hvk SHA384 _]
        rfl
  · intro secured res h hfalse
    rw [EcdsaRdfc2019_verifyProof] at h
    try dsimp only at h
    repeat' split at h
    any_goals exact Except.noConfusion h
    all_goals
      injection h with h2
    all_goals
      subst h2
    all_goals
      simp_all

/-- C1 witness: at the concrete environments (signature `[0]`, verifier
accepting exactly it, trivial canonicalizers), create-then-verify at P-256
yields `verified = true` with the original proof-free credential returned. -/
theorem rdfc_create_verify_roundtrip_witness :
    wDoc.proof = none ∧
    wProofOptions.type = TYPE_DIP ∧
    wProofOptions.cryptosuite = SUITE_RDFC ∧
    wProofOptions.proofValue = none ∧
    createdCheckFails wEnv.parseDate wProofOptions.created = false ∧
    wMenv.resolveImport wProofOptions.verificationMethod P256 = .ok wKp ∧
    (∀ hn d, wEnv.verifyK hn 0 (wEnv.signK hn 0 d) d = true) ∧
    (∃ producedProof,
      EcdsaRdfc2019_createProof wEnv wCanon wMenv wDoc P256 wProofOptions =
        .ok producedProof ∧
      EcdsaRdfc2019_verifyProof wEnv wCanon wMenv
        { wDoc with proof := some producedProof } P256 =
        .ok ⟨true, some wDoc⟩) :=
  ⟨rfl, rfl, rfl, rfl, rfl, rfl, fun _ _ => rfl,
    (rdfc_create_verify_roundtrip Unit Unit wEnv wCanon wMenv wDoc P256
      wProofOptions wKp 0 0 (Or.inl rfl) rfl rfl rfl rfl rfl rfl rfl rfl
      (fun hn d x hx => by
        have hx0 : x ∈ [0] := hx
        rw [List.mem_singleton] at hx0
        omega)
      (fun _ _ => rfl)).1⟩

end VCE
